import Mathlib

/-!
# Verification of the Hebrew analytics bot's preprocessing and PDF-report layer

This development gives a shallow embedding, in Lean 4, of the pure logic of
`src/preprocess.py` and `src/pdf_report.py` of the repository
`hebrew-analytics-telegram-bot`, and proves (or refutes) the specification
claims about that logic.

Modelling conventions:
* Python strings are modelled as `List Char` (wrapped in `String` at the
  boundaries); Python floats arising from the data path are modelled as
  exact rationals `ℚ` (the comparisons performed by the code are order
  comparisons on small magnitudes, where double rounding is irrelevant);
* Python `None`/`NaN` cells are modelled as `Option`;
* calls into pandas/fpdf/the OS (statistics of a series, text rendering,
  font files on disk, environment variables, HTTP downloads) are modelled
  as explicit parameters, so every theorem quantifies over all behaviours
  of those libraries;
* character classes of Python's `re` module (`\w`, `\s`) are modelled
  exactly on the code points exercised by this code base: ASCII, the
  Latin-1 supplement and the Hebrew block `U+0590–U+05FF`.
-/

namespace HebrewBot

/-! ## Character classes (model of Python `re` classes `\s`, `\d`, `\w`) -/

/-- Python `\s` (`str.strip`/`str.split` whitespace) on the ASCII range:
space, tab, newline, carriage return, vertical tab, form feed. -/
def isPySpace (c : Char) : Bool :=
  c.toNat = 0x20 || c.toNat = 0x9 || c.toNat = 0xA || c.toNat = 0xD ||
    c.toNat = 0xB || c.toNat = 0xC

/-- ASCII digit, Python `\d` on the code points exercised here. -/
def isPyDigit (c : Char) : Bool :=
  0x30 ≤ c.toNat && c.toNat ≤ 0x39

/-- ASCII letter. -/
def isAsciiLetter (c : Char) : Bool :=
  (0x61 ≤ c.toNat && c.toNat ≤ 0x7A) || (0x41 ≤ c.toNat && c.toNat ≤ 0x5A)

/-- Code point in the Hebrew Unicode block `U+0590 – U+05FF`
(the class `֐-׿` written in the Python sources). -/
def isHebrewBlock (c : Char) : Bool :=
  0x590 ≤ c.toNat && c.toNat ≤ 0x5FF

/-- Letter of the Latin-1 supplement (`À`..`ÿ` without `×` and `÷`).
These are word characters for Python's Unicode-aware `\w`. -/
def isLatin1Letter (c : Char) : Bool :=
  0xC0 ≤ c.toNat && c.toNat ≤ 0xFF && c.toNat ≠ 0xD7 && c.toNat ≠ 0xF7

/-- Python's Unicode `\w`, restricted to the code points exercised by this
code base (ASCII, Latin-1 supplement, Hebrew letters and points). Inside
`normalize_column_name` the class `\w` only ever appears in the union
`[^\w\s֐-׿]`, so the Hebrew part of `\w` is subsumed by the
explicit Hebrew range there. -/
def isPyWord (c : Char) : Bool :=
  isAsciiLetter c || isPyDigit c || c.toNat = 0x5F || isLatin1Letter c ||
    (isHebrewBlock c && c.toNat ≠ 0x5BE && c.toNat ≠ 0x5C0 && c.toNat ≠ 0x5C3 &&
      c.toNat ≠ 0x5C6 && c.toNat ≠ 0x5F3 && c.toNat ≠ 0x5F4)

/-! ## Python string primitives used by the sources -/

/-- `str.strip(chars)`: drop the characters satisfying `p` from both ends. -/
def stripBy (p : Char → Bool) (l : List Char) : List Char :=
  ((l.dropWhile p).reverse.dropWhile p).reverse

/-- `str.strip()`: drop leading and trailing whitespace. -/
def stripWs (l : List Char) : List Char :=
  stripBy isPySpace l

/-- `str.strip('_')`: drop leading and trailing underscores. -/
def stripUnderscore (l : List Char) : List Char :=
  stripBy (· = '_') l

/-- `str.split()` (no separator): split on runs of whitespace, dropping
empty fields. `acc` is the current word, reversed. -/
def pySplitAux : List Char → List Char → List (List Char)
  | [], acc => if acc.isEmpty then [] else [acc.reverse]
  | c :: rest, acc =>
    if isPySpace c then
      if acc.isEmpty then pySplitAux rest []
      else acc.reverse :: pySplitAux rest []
    else pySplitAux rest (c :: acc)

/-- `str.split()` with no arguments. -/
def pySplit (l : List Char) : List (List Char) :=
  pySplitAux l []

/-! ## `normalize_column_name` (src/preprocess.py lines 17–35)

The Python function performs, in order:
`strip()`; `re.sub(r'[^\w\s֐-׿]', '_', ...)`;
`re.sub(r'\s+', '_', ...)`; `re.sub(r'_+', '_', ...)`; `strip('_')`;
and substitutes `"column"` for an empty result. -/

/-- A character survives `re.sub(r'[^\w\s֐-׿]', '_', ...)`
unchanged iff it is a word character, whitespace, or in the Hebrew block. -/
def keepInNormalize (c : Char) : Bool :=
  isPyWord c || isPySpace c || isHebrewBlock c

/-- `re.sub(r'[^\w\s֐-׿]', '_', name)`: the regex matches single
characters, so the substitution is a character map. -/
def subNonWord (l : List Char) : List Char :=
  l.map fun c => if keepInNormalize c then c else '_'

/-- `re.sub(r'\s+', '_', name)`: each maximal run of whitespace becomes a
single underscore. `prev` records whether the previous character was
whitespace (i.e. we are inside a run already replaced). -/
def collapseWs : Bool → List Char → List Char
  | _, [] => []
  | prev, c :: rest =>
    if isPySpace c then
      if prev then collapseWs true rest else '_' :: collapseWs true rest
    else c :: collapseWs false rest

/-- `re.sub(r'_+', '_', name)`: each maximal run of underscores becomes a
single underscore. -/
def collapseUnd : Bool → List Char → List Char
  | _, [] => []
  | prev, c :: rest =>
    if c = '_' then
      if prev then collapseUnd true rest else '_' :: collapseUnd true rest
    else c :: collapseUnd false rest

/-- The five rewriting stages of `normalize_column_name`, in source order:
`strip()`, the three `re.sub` calls, `strip('_')`. -/
def normCore (l : List Char) : List Char :=
  stripUnderscore (collapseUnd false (collapseWs false (subNonWord (stripWs l))))

/-- `normalize_column_name` on `List Char` (src/preprocess.py lines 17–35):
the rewriting stages, then the empty-name fallback `"column"`. -/
def normalizeColumnNameL (l : List Char) : List Char :=
  if (normCore l).isEmpty then "column".data else normCore l

/-- `normalize_column_name` (src/preprocess.py lines 17–35). -/
def normalize_column_name (s : String) : String :=
  ⟨normalizeColumnNameL s.data⟩

/-! ## Lemmas about the normalisation pipeline -/

/-- No two consecutive underscores (the shape left by `re.sub(r'_+', '_')`). -/
def NoTwoUnd (a b : Char) : Prop := ¬(a = '_' ∧ b = '_')

instance : DecidableRel NoTwoUnd := fun a b => by
  unfold NoTwoUnd; infer_instance

/-- The shape invariant of a fully-normalised identifier. -/
def GoodNorm (l : List Char) : Prop :=
  l ≠ [] ∧ (∀ c ∈ l, keepInNormalize c = true ∧ isPySpace c = false) ∧
    List.Chain' NoTwoUnd l ∧ l.head? ≠ some '_' ∧ l.getLast? ≠ some '_'

/-! ## `clean_numeric_value` (src/preprocess.py lines 59–119)

The inner conversion function of `coerce_numeric`. Python `float` results
are modelled as exact rationals; `np.nan` results as `none`. -/

/-- Value of a list of ASCII digits read in base 10. -/
def digitsVal (l : List Char) : ℕ :=
  l.foldl (fun n c => 10 * n + (c.toNat - '0'.toNat)) 0

/-- Value of a fractional digit string `d₁d₂…dₖ` as `0.d₁d₂…dₖ`. -/
def fracVal (l : List Char) : ℚ :=
  (digitsVal l : ℚ) / (10 : ℚ) ^ l.length

/-- Split an optional leading sign (`+` or `-`) off a string. -/
def signSplit (l : List Char) : Option Char × List Char :=
  match l with
  | '+' :: t => (some '+', t)
  | '-' :: t => (some '-', t)
  | t => (none, t)

/-- Model of Python `float(str)` on strings drawn from digits and
`.`/`,`/`+`/`-` (the alphabet reaching the `float` call in
`clean_numeric_value`; such strings contain no whitespace, exponents or
special values). Accepts `[+-]? (digits [. digits*] | . digits)` and
rejects everything else with a `ValueError`, modelled as `none`. -/
def pyFloatParse (l : List Char) : Option ℚ :=
  let sr := signSplit l
  let sgn : ℚ := if sr.1 = some '-' then -1 else 1
  let r := sr.2
  let ip := r.takeWhile isPyDigit
  let r2 := r.dropWhile isPyDigit
  if ip.isEmpty then
    match r2 with
    | '.' :: fp =>
      if !fp.isEmpty && fp.all isPyDigit then some (sgn * fracVal fp) else none
    | _ => none
  else
    match r2 with
    | [] => some (sgn * (digitsVal ip : ℚ))
    | '.' :: fp =>
      if fp.all isPyDigit then some (sgn * ((digitsVal ip : ℚ) + fracVal fp))
      else none
    | _ => none

/-- Attempt to match the regex `[-+]?\d*\.?\d+` at the start of `l`
(with the backtracking semantics of Python `re`: the optional dot is
taken only when at least one digit follows it). Returns the matched
token. -/
def matchNumAt (l : List Char) : Option (List Char) :=
  let sr := signSplit l
  let sgn : List Char := match sr.1 with | some c => [c] | none => []
  let r := sr.2
  let d1 := r.takeWhile isPyDigit
  let r2 := r.dropWhile isPyDigit
  match r2 with
  | '.' :: r3 =>
    let d2 := r3.takeWhile isPyDigit
    if !d2.isEmpty then some (sgn ++ d1 ++ '.' :: d2)
    else if !d1.isEmpty then some (sgn ++ d1) else none
  | _ => if !d1.isEmpty then some (sgn ++ d1) else none

/-- `re.search(r'([-+]?\d*\.?\d+)', s)`: the leftmost match of the
number regex, scanning start positions left to right. -/
def searchNum : List Char → Option (List Char)
  | [] => none
  | c :: rest =>
    match matchNumAt (c :: rest) with
    | some tok => some tok
    | none => searchNum rest

/-- The character filter
`re.sub(r'[^\d\.,+-]', '', val_str)`: keep digits, `.`, `,`, `+`, `-`. -/
def keepNumChar (c : Char) : Bool :=
  isPyDigit c || c = '.' || c = ',' || c = '+' || c = '-'

/-- The thousands/decimal separator disambiguation of
`clean_numeric_value` (src/preprocess.py lines 83–104). -/
def commaDotFix (cleaned : List Char) : List Char :=
  if cleaned.contains ',' && cleaned.contains '.' then
    if cleaned.findIdx (· = ',') < cleaned.findIdx (· = '.') then
      cleaned.filter (· ≠ ',')
    else
      (cleaned.filter (· ≠ '.')).map fun c => if c = ',' then '.' else c
  else if cleaned.contains ',' then
    let parts := cleaned.splitOn ','
    if parts.length = 2 && (parts.getD 1 []).length = 3 then
      cleaned.filter (· ≠ ',')
    else if parts.length = 2 && (parts.getD 1 []).length ≤ 2 then
      cleaned.map fun c => if c = ',' then '.' else c
    else
      cleaned.filter (· ≠ ',')
  else cleaned

/-- The multiple-dot collapse of `clean_numeric_value`
(src/preprocess.py lines 106–109): all dots but the last become
thousands separators. -/
def dotsFix (c1 : List Char) : List Char :=
  if c1.count '.' > 1 then
    let parts := c1.splitOn '.'
    (parts.dropLast).foldr (· ++ ·) [] ++ '.' :: (parts.getLast?.getD [])
  else c1

/-- The non-percentage path of `clean_numeric_value`
(src/preprocess.py lines 73–119): parenthesis sign detection, character
cleanup, separator disambiguation, `lstrip('+')`, `float`. -/
def cleanTail (vs : List Char) : Option ℚ :=
  let isNeg := vs.contains '(' && vs.contains ')'
  let cleaned := vs.filter keepNumChar
  if cleaned.isEmpty then none
  else
    let c3 := (dotsFix (commaDotFix cleaned)).dropWhile (· = '+')
    match pyFloatParse c3 with
    | some r => some (if isNeg then -r else r)
    | none => none

/-- The body of `clean_numeric_value` after stripping (src/preprocess.py
lines 64–119): the empty guard, then the percentage branch, falling
through to `cleanTail`. The percentage branch falls through exactly when
the number regex finds no match (a matched token always parses, so the
`bind` cannot lose a match). -/
def cleanBody (vs : List Char) : Option ℚ :=
  if vs.isEmpty then none
  else
    match (if vs.contains '%'
      then ((searchNum vs).bind pyFloatParse).map (· / 100)
      else none) with
    | some q => some q
    | none => cleanTail vs

/-- `clean_numeric_value` (src/preprocess.py lines 59–119) on the
characters of a string value; `NaN` inputs are handled by the caller
`coerce_numeric` together with the `val == 'nan'` guard modelled here. -/
def cleanNumericValueL (l : List Char) : Option ℚ :=
  if l = "nan".data then none else cleanBody (stripWs l)

/-- `clean_numeric_value` (src/preprocess.py lines 59–119). -/
def cleanNumericValue (val : String) : Option ℚ :=
  cleanNumericValueL val.data

/-! ## `coerce_numeric` column logic (src/preprocess.py lines 38–136)

A pandas object column is modelled as `List (Option String)` (cells are
strings or `NaN`). `coerce_numeric` is modelled on object columns; for
an already-numeric dtype the function returns its argument unchanged
before any conversion (line 47). -/

/-- The `astype(str)` + `replace(['nan','NaN','None','null',''], np.nan)`
step of `coerce_numeric` (lines 56–57): placeholder strings become
`NaN`. -/
def toCleanStr (v : Option String) : Option String :=
  match v with
  | none => none
  | some s =>
    if s = "nan" || s = "NaN" || s = "None" || s = "null" || s = "" then none
    else some s

/-- Per-cell conversion as applied by `clean_series.apply(clean_numeric_value)`
(line 122): the placeholder replacement, then `clean_numeric_value`. -/
def convertCell (v : Option String) : Option ℚ :=
  (toCleanStr v).bind fun s => cleanNumericValue s

/-- Result of `coerce_numeric`: either the original object column,
byte-for-byte, or the converted numeric column. -/
inductive NumCoerceResult
  | kept (col : List (Option String))
  | converted (col : List (Option ℚ))
deriving DecidableEq

/-- `series.notna().sum()`: the number of non-null cells. -/
def nonNullCount {α : Type} (col : List (Option α)) : ℕ :=
  (col.filter fun v => v.isSome).length

/-- `coerce_numeric` on an object column (src/preprocess.py
lines 121–136): apply the cleaner to every cell, then accept the
conversion only when at least one original cell is non-null and at least
50 % of the originally non-null cells converted. -/
def coerceNumeric (col : List (Option String)) : NumCoerceResult :=
  if 0 < nonNullCount col ∧
      ((nonNullCount (col.map convertCell) : ℚ) / (nonNullCount col : ℚ) ≥ 1 / 2) then
    .converted (col.map convertCell)
  else .kept col

/-! ## `detect_and_parse_dates` (src/preprocess.py lines 139–193)

`pd.to_datetime(..., dayfirst=True, errors='coerce')` is a pandas
library call; it is modelled as an explicit parameter
`parse : String → Option ℤ` mapping a cell to a timestamp (`none` is
`NaT`). The four date-indicator regexes are modelled exactly. -/

/-- One token of a date-indicator regex: a bounded digit run
`\d{lo,hi}` or a single character from a class. -/
inductive RTok
  | digits (lo hi : ℕ)
  | cls (cs : List Char)

/-- Match a token list against a prefix of `l` (existential semantics:
`re.search` only asks whether some choice of run lengths matches). -/
def matchTok : List RTok → List Char → Bool
  | [], _ => true
  | .digits lo hi :: ps, l =>
    (List.range (hi + 1 - lo)).any fun i =>
      let k := lo + i
      decide ((l.take k).length = k) && (l.take k).all isPyDigit &&
        matchTok ps (l.drop k)
  | .cls cs :: ps, l =>
    match l with
    | [] => false
    | c :: r => cs.contains c && matchTok ps r

/-- `re.search` for a token list: try every start position. -/
def searchTok (ps : List RTok) : List Char → Bool
  | [] => matchTok ps []
  | c :: r => matchTok ps (c :: r) || searchTok ps r

/-- The four date-indicator patterns of src/preprocess.py lines 153–158. -/
def dateIndicators : List (List RTok) :=
  [[.digits 1 2, .cls ['/', '-'], .digits 1 2, .cls ['/', '-'], .digits 2 4],
   [.digits 4 4, .cls ['/', '-'], .digits 1 2, .cls ['/', '-'], .digits 1 2],
   [.digits 1 2, .cls ['.'], .digits 1 2, .cls ['.'], .digits 2 4],
   [.digits 4 4, .cls ['.'], .digits 1 2, .cls ['.'], .digits 1 2]]

/-- Lines 162–167: does `str(val).strip()` match any date indicator? -/
def looksLikeDate (s : String) : Bool :=
  dateIndicators.any fun p => searchTok p (stripWs s.data)

/-- Result of the per-column date coercion: the original column,
byte-for-byte, or the parsed datetime column. -/
inductive DateCoerceResult
  | kept (col : List (Option String))
  | converted (col : List (Option ℤ))
deriving DecidableEq

/-- The per-column body of `detect_and_parse_dates`
(src/preprocess.py lines 147–191) on an object column: sample the first
ten non-null values, require more than 30 % of them to look like dates,
parse with the `pd.to_datetime` oracle, and accept only when at least
60 % of originally non-null values parsed. -/
def dateCoerceColumn (parse : String → Option ℤ)
    (col : List (Option String)) : DateCoerceResult :=
  let samples := (col.filterMap id).take 10
  if samples.isEmpty then .kept col
  else if (((samples.filter looksLikeDate).length : ℚ) / (samples.length : ℚ) > 3 / 10) then
    if 0 < nonNullCount col ∧
        ((nonNullCount (col.map fun v => v.bind parse) : ℚ) /
          (nonNullCount col : ℚ) ≥ 3 / 5) then
      .converted (col.map fun v => v.bind parse)
    else .kept col
  else .kept col

/-- The 30 % date-indicator sampling gate of `detect_and_parse_dates`
(lines 149–170): a nonempty sample of the first ten non-null values,
more than 30 % of which match a date indicator. -/
def dateGate (col : List (Option String)) : Prop :=
  ((col.filterMap id).take 10).isEmpty = false ∧
    ((((col.filterMap id).take 10).filter looksLikeDate).length : ℚ) /
      (((col.filterMap id).take 10).length : ℚ) > 3 / 10

/-! ## The DataFrame model and `preprocess_df` (src/preprocess.py lines 196–255)

A pandas DataFrame is modelled as a row count and a list of named,
typed columns (object / numeric / datetime, the dtypes this code
produces). Cells are `Option` values (`none` is `NaN`/`NaT`). -/

/-- The cells of one column, tagged with its dtype. -/
inductive ColData
  | obj (cells : List (Option String))
  | num (cells : List (Option ℚ))
  | dt (cells : List (Option ℤ))
deriving DecidableEq

structure DFCol where
  name : String
  data : ColData
deriving DecidableEq

structure DataFrame where
  nRows : ℕ
  cols : List DFCol
deriving DecidableEq

/-- `df.empty`: no rows or no columns. -/
def DataFrame.empty (df : DataFrame) : Bool :=
  df.nRows = 0 || df.cols.isEmpty

/-- Is the cell at row `r` null? (out-of-range counts as null; the
well-formedness of a DataFrame makes every access in range). -/
def ColData.noneAt (cd : ColData) (r : ℕ) : Bool :=
  match cd with
  | .obj cs => (cs.getD r none).isNone
  | .num cs => (cs.getD r none).isNone
  | .dt cs => (cs.getD r none).isNone

/-- `series.notna().any()`: does the column hold any non-null cell? -/
def ColData.anySome : ColData → Bool
  | .obj cs => cs.any fun v => v.isSome
  | .num cs => cs.any fun v => v.isSome
  | .dt cs => cs.any fun v => v.isSome

/-- Keep the cells whose row index satisfies `keep`. -/
def filterIdx {α : Type} (keep : ℕ → Bool) (cells : List α) : List α :=
  (cells.enum.filter fun p => keep p.1).map fun p => p.2

def ColData.filterRows (keep : ℕ → Bool) : ColData → ColData
  | .obj cs => .obj (filterIdx keep cs)
  | .num cs => .num (filterIdx keep cs)
  | .dt cs => .dt (filterIdx keep cs)

/-- `result_df.dropna(how='all')` (line 248): drop the rows whose cells
are all null. -/
def dropEmptyRows (df : DataFrame) : DataFrame :=
  let keep : ℕ → Bool := fun r => !(df.cols.all fun c => c.data.noneAt r)
  { nRows := ((List.range df.nRows).filter keep).length
    cols := df.cols.map fun c => { c with data := c.data.filterRows keep } }

/-- `result_df.loc[:, result_df.notna().any()]` (line 249): drop the
all-null columns. -/
def dropEmptyCols (df : DataFrame) : DataFrame :=
  { df with cols := df.cols.filter fun c => c.data.anySome }

/-- Step 1 of `preprocess_df` (line 213): normalise every column name. -/
def renameCols (df : DataFrame) : DataFrame :=
  { df with cols := df.cols.map fun c => { c with name := normalize_column_name c.name } }

/-- Does some column label occur more than once in the frame? With a
duplicated label, the label lookup `df[col]` yields a sub-DataFrame
rather than a Series, so the attribute access `df[col].dtype`
(src/preprocess.py lines 147 and 227) raises `AttributeError`. -/
def dupLabel (df : DataFrame) : Bool :=
  (df.cols.map DFCol.name).any fun n => 1 < (df.cols.map DFCol.name).count n

/-- The per-column body of `detect_and_parse_dates` (lines 146–192)
applied to every column of the frame: when the frame's labels are all
distinct, the source's label loop visits exactly these columns and
`df[col]` selects each one. -/
def dateParseCols (parse : String → Option ℤ) (df : DataFrame) : DataFrame :=
  { df with cols := df.cols.map fun c =>
      match c.data with
      | .obj cells =>
        match dateCoerceColumn parse cells with
        | .kept _ => c
        | .converted dcells => { c with data := .dt dcells }
      | _ => c }

/-- `detect_and_parse_dates` (src/preprocess.py lines 139–193): the loop
reads `df[col].dtype` (line 147) for every label of the frame, so a
frame carrying a duplicated label raises `AttributeError` — there is no
enclosing `try` in `preprocess.py`, so the exception propagates, modelled
as `.error ()`. With distinct labels the loop is the per-column map
`dateParseCols`. -/
def detectAndParseDates (parse : String → Option ℤ) (df : DataFrame) :
    Except Unit DataFrame :=
  if dupLabel df then .error () else .ok (dateParseCols parse df)

/-- The character class `[\d₪$€£¥%,.\-+()]` of line 235. -/
def numIndicatorChar (c : Char) : Bool :=
  isPyDigit c || c = '₪' || c = '$' || c = '€' || c = '£' || c = '¥' || c = '%' ||
    c = ',' || c = '.' || c = '-' || c = '+' || c = '(' || c = ')'

/-- The per-column body of the numeric pass (lines 228–244): for each
object column, sample up to 20 non-null values; when more than 40 % of
them contain a numeric-indicator character, run `coerce_numeric`. -/
def numericCoerceCols (df : DataFrame) : DataFrame :=
  { df with cols := df.cols.map fun c =>
      match c.data with
      | .obj cells =>
        let samples := (cells.filterMap id).take 20
        if samples.isEmpty then c
        else if (((samples.filter fun s => (stripWs s.data).any numIndicatorChar).length : ℚ) /
            (samples.length : ℚ) > 2 / 5) then
          match coerceNumeric cells with
          | .kept _ => c
          | .converted ncells => { c with data := .num ncells }
        else c
      | _ => c }

/-- Step 3 of `preprocess_df` (lines 226–244): the loop again reads
`result_df[col].dtype` (line 227) for every label, so a duplicated
label raises `AttributeError` exactly as in `detect_and_parse_dates`;
with distinct labels it is the per-column map `numericCoerceCols`. -/
def numericCoercePass (df : DataFrame) : Except Unit DataFrame :=
  if dupLabel df then .error () else .ok (numericCoerceCols df)

/-- `preprocess_df` (src/preprocess.py lines 196–255): the empty guard
(which returns the input frame untouched), then column renaming, date
parsing, numeric coercion, and the dropping of all-null rows and
columns, in source order. An `AttributeError` raised inside the date or
numeric loop propagates (no `try` encloses them), so the function
yields `.error ()` instead of a frame. -/
def preprocess_df (parse : String → Option ℤ) (df : DataFrame) :
    Except Unit DataFrame :=
  if df.empty then .ok df
  else
    match detectAndParseDates parse (renameCols df) with
    | .error e => .error e
    | .ok d2 =>
      match numericCoercePass d2 with
      | .error e => .error e
      | .ok d3 => .ok (dropEmptyCols (dropEmptyRows d3))

/-- One character of the identifier class `[A-Za-z0-9_֐-׿]`
claimed by the specification. -/
def specIdentChar (ch : Char) : Bool :=
  isAsciiLetter ch || isPyDigit ch || ch.toNat = 0x5F || isHebrewBlock ch

/-! ## Hebrew font resolution (src/pdf_report.py lines 53–264)

The filesystem is a predicate `fs : String → Bool` (`os.path.exists`),
the environment a map `env : String → Option String` (`os.getenv`), the
operating system a tag, the writable download directory an
`Option String` (`None` when no candidate directory is writable), and
the success of each HTTP download a predicate on the weight name.
Downloading writes the file, producing an updated filesystem. -/

/-- `_check_repository_fonts` (lines 98–111). `baseDir` is
`os.path.dirname(os.path.abspath(__file__))`. -/
def checkRepositoryFonts (fs : String → Bool) (baseDir : String) :
    Option String × Option String :=
  let reg := baseDir ++ "/assets/fonts/NotoSansHebrew-Regular.ttf"
  let bold := baseDir ++ "/assets/fonts/NotoSansHebrew-Bold.ttf"
  (if fs reg then some reg else none, if fs bold then some bold else none)

/-- `_check_environment_fonts` (lines 113–125); an empty string is falsy
in Python, hence the extra guard. -/
def checkEnvironmentFonts (fs : String → Bool) (env : String → Option String) :
    Option String × Option String :=
  (match env "REPORT_FONT_REGULAR" with
    | some p => if p ≠ "" ∧ fs p then some p else none
    | none => none,
   match env "REPORT_FONT_BOLD" with
    | some p => if p ≠ "" ∧ fs p then some p else none
    | none => none)

inductive OSKind
  | windows
  | mac
  | linuxOS

def windowsFontPaths : List String :=
  ["C:/Windows/Fonts/arial.ttf",
   "C:/Windows/Fonts/arialbd.ttf",
   "C:/Windows/Fonts/calibri.ttf",
   "C:/Windows/Fonts/calibrib.ttf",
   "C:/Windows/Fonts/NotoSansHebrew-Regular.ttf",
   "C:/Windows/Fonts/NotoSansHebrew-Bold.ttf"]

def linuxFontPaths : List String :=
  ["/usr/share/fonts/truetype/dejavu/DejaVuSans.ttf",
   "/usr/share/fonts/truetype/dejavu/DejaVuSans-Bold.ttf",
   "/usr/share/fonts/truetype/liberation/LiberationSans-Regular.ttf",
   "/usr/share/fonts/truetype/liberation/LiberationSans-Bold.ttf",
   "/usr/share/fonts/truetype/noto/NotoSansHebrew-Regular.ttf",
   "/usr/share/fonts/truetype/noto/NotoSansHebrew-Bold.ttf",
   "/usr/share/fonts/TTF/NotoSansHebrew-Regular.ttf",
   "/usr/share/fonts/TTF/NotoSansHebrew-Bold.ttf"]

def macFontPaths : List String :=
  ["/System/Library/Fonts/Arial.ttf",
   "/System/Library/Fonts/Arial Bold.ttf",
   "/Library/Fonts/Arial.ttf",
   "/Library/Fonts/NotoSansHebrew-Regular.ttf",
   "/Library/Fonts/NotoSansHebrew-Bold.ttf"]

/-- Lines 162–176: the OS-specific list, then all lists again in dict
insertion order (windows, linux, mac). -/
def scanPaths (osk : OSKind) : List String :=
  (match osk with
    | .windows => windowsFontPaths
    | .mac => macFontPaths
    | .linuxOS => linuxFontPaths) ++
    (windowsFontPaths ++ linuxFontPaths ++ macFontPaths)

/-- Does `needle` start `hay`? -/
def startsWithL : List Char → List Char → Bool
  | [], _ => true
  | _ :: _, [] => false
  | a :: as, b :: bs => a = b && startsWithL as bs

/-- Python's `in` on strings: substring containment. -/
def substrB (needle : List Char) : List Char → Bool
  | [] => needle.isEmpty
  | c :: r => startsWithL needle (c :: r) || substrB needle r

/-- ASCII `str.lower()`. -/
def toLowerL (l : List Char) : List Char :=
  l.map fun c => if 0x41 ≤ c.toNat ∧ c.toNat ≤ 0x5A then Char.ofNat (c.toNat + 32) else c

/-- Line 181: `'bold' in path.lower() or 'bd' in path.lower() or 'Bold' in path`. -/
def isBoldPath (p : String) : Bool :=
  substrB "bold".data (toLowerL p.data) || substrB "bd".data (toLowerL p.data) ||
    substrB "Bold".data p.data

/-- The scan loop of lines 179–189. The `break` once both weights are
found has no effect on the final pair (later iterations cannot
overwrite a found font), so it is not modelled. -/
def scanLoop (fs : String → Bool) : List String →
    Option String × Option String → Option String × Option String
  | [], acc => acc
  | p :: rest, (reg, bold) =>
    if fs p then
      if isBoldPath p then
        scanLoop fs rest (reg, if bold.isNone then some p else bold)
      else
        scanLoop fs rest (if reg.isNone then some p else reg, bold)
    else scanLoop fs rest (reg, bold)

/-- `_scan_system_fonts` (lines 127–194). -/
def scanSystemFonts (fs : String → Bool) (osk : OSKind) :
    Option String × Option String :=
  scanLoop fs (scanPaths osk) (none, none)

/-- One weight of `_download_noto_fonts` (lines 234–255): reuse the file
if it already exists, otherwise download it (writing it to disk) when
the HTTP fetch succeeds. -/
def downloadStep (dlOk : String → Bool) (weight path : String)
    (fs : String → Bool) : Option String × (String → Bool) :=
  if fs path then (some path, fs)
  else if dlOk weight then (some path, fun q => q = path || fs q)
  else (none, fs)

/-- `_download_noto_fonts` (lines 196–264): `fontsDir` is the first
writable candidate directory, `none` when there is none. -/
def downloadNotoFonts (fs : String → Bool) (fontsDir : Option String)
    (dlOk : String → Bool) : (Option String × Option String) × (String → Bool) :=
  match fontsDir with
  | none => ((none, none), fs)
  | some dir =>
    let r := downloadStep dlOk "regular" (dir ++ "/NotoSansHebrew-Regular.ttf") fs
    let b := downloadStep dlOk "bold" (dir ++ "/NotoSansHebrew-Bold.ttf") r.2
    ((r.1, b.1), b.2)

/-- `resolve_hebrew_fonts` (src/pdf_report.py lines 53–96): the four
tiers in priority order, each accepted only when it yields both weights;
the final filesystem is returned alongside the pair. -/
def resolveHebrewFonts (fs : String → Bool) (env : String → Option String)
    (baseDir : String) (osk : OSKind) (fontsDir : Option String)
    (dlOk : String → Bool) : (Option String × Option String) × (String → Bool) :=
  let repo := checkRepositoryFonts fs baseDir
  if repo.1.isSome && repo.2.isSome then (repo, fs)
  else
    let envF := checkEnvironmentFonts fs env
    if envF.1.isSome && envF.2.isSome then (envF, fs)
    else
      let sys := scanSystemFonts fs osk
      if sys.1.isSome && sys.2.isSome then (sys, fs)
      else
        let dl := downloadNotoFonts fs fontsDir dlOk
        if dl.1.1.isSome && dl.1.2.isSome then dl
        else ((none, none), dl.2)

/-- An optional path is acceptable when, if present, it exists on `fs`. -/
def fsOk (fs : String → Bool) : Option String → Prop
  | none => True
  | some p => fs p = true

/-! ## `_wrap_text_rtl` (src/pdf_report.py lines 480–503)

Greedy word wrap. The width measure `_get_text_width`
(lines 339–344) calls `pdf.get_string_width`, falling back to
`len(text) * 2`; it is modelled as a parameter `w : List Char → ℚ`, so
the theorems hold for every width measure. -/

/-- The loop of `_wrap_text_rtl`: `ws` are the remaining words, `cur`
is `current_line` (an empty `current_line` is falsy in Python, so with
an empty `cur` the test line is the word alone, and nothing is pushed
when it does not fit). -/
def wrapAux (w : List Char → ℚ) (maxW : ℚ) :
    List (List Char) → List Char → List (List Char)
  | [], [] => []
  | [], c :: cur => [c :: cur]
  | word :: rest, [] =>
    if w word ≤ maxW then wrapAux w maxW rest word
    else wrapAux w maxW rest word
  | word :: rest, c :: cur =>
    if w ((c :: cur) ++ ' ' :: word) ≤ maxW then
      wrapAux w maxW rest ((c :: cur) ++ ' ' :: word)
    else (c :: cur) :: wrapAux w maxW rest word

/-- `_wrap_text_rtl(text, max_width)` (src/pdf_report.py lines 480–503). -/
def wrapTextRtl (w : List Char → ℚ) (maxW : ℚ) (text : List Char) :
    List (List Char) :=
  wrapAux w maxW (pySplit text) []

/-! ## The guaranteed report sections (src/pdf_report.py lines 807–1255)

`t(key)` (src/i18n.py) is modelled for the default language `he`: the
Hebrew table entry, falling back to the key itself. Library-rendered
text (`to_string`, `describe`) and the two statistics that are not
rational arithmetic (`std`, `skew`), as well as Python's float/int
string formatting, are parameters bundled in `PdEnv`, so the theorems
hold for every behaviour of those calls. -/

/-- `t(key)` for the keys reached by the guaranteed sections
(src/i18n.py, `HEBREW_TEXTS`); an unknown key falls back to itself. -/
def tHe (key : String) : String :=
  if key = "data_preview_title" then "תצוגה מקדימה של הנתונים" else
  if key = "data_preview_description" then "השורות הראשונות מהנתונים:" else
  if key = "data_shape" then "מימדי הנתונים" else
  if key = "rows" then "שורות" else
  if key = "columns" then "עמודות" else
  if key = "memory_usage" then "שימוש בזיכרון" else
  if key = "megabytes" then "מגה-בייט" else
  if key = "missing_values_title" then "ניתוח ערכים חסרים" else
  if key = "no_missing_values" then "✅ מעולה! אין ערכים חסרים בנתונים" else
  if key = "missing_values_found" then "נמצאו ערכים חסרים בעמודות הבאות:" else
  if key = "total_missing" then "סך הכל ערכים חסרים" else
  if key = "categorical_title" then "התפלגויות קטגוריות" else
  if key = "categorical_description" then "ניתוח העמודות הקטגוריאליות:" else
  if key = "top_values" then "ערכים נפוצים ביותר" else
  if key = "unique_values" then "ערכים ייחודיים" else
  if key = "no_categorical_data" then "לא נמצאו עמודות קטגוריות בנתונים" else
  if key = "other_values" then "אחר" else
  if key = "column" then "עמודה" else
  if key = "numeric_title" then "התפלגויות מספריות" else
  if key = "numeric_description" then "ניתוח העמודות המספריות:" else
  if key = "no_numeric_data" then "לא נמצאו עמודות מספריות בנתונים" else
  if key = "statistics" then "סטטיסטיקות" else
  if key = "mean" then "ממוצע" else
  if key = "median" then "חציון" else
  if key = "std" then "סטיית תקן" else
  if key = "min" then "מינימום" else
  if key = "max" then "מקסימום" else
  if key = "q25" then "רבעון ראשון" else
  if key = "q75" then "רבעון שלישי" else
  if key = "stats_summary_title" then "סיכום סטטיסטי מקיף" else
  if key = "stats_summary_description" then "תקציר סטטיסטי של כל העמודות המספריות:" else
  if key = "data_types_summary" then "סיכום סוגי הנתונים" else
  if key = "numeric_columns" then "עמודות מספריות" else
  if key = "categorical_columns" then "עמודות קטגוריות" else
  if key = "datetime_columns" then "עמודות תאריך" else
  if key = "outliers_title" then "ניתוח ערכים חריגים" else
  if key = "outliers_description" then "זיהוי ערכים חריגים לפי שיטת IQR:" else
  if key = "no_outliers_found" then "✅ לא זוהו ערכים חריגים באמצעות שיטת IQR" else
  if key = "outliers_found" then "זוהו ערכים חריגים בעמודות הבאות:" else
  if key = "outliers_count" then "מספר ערכים חריגים" else
  if key = "outlier_range" then "טווח תקין" else
  if key = "outlier_warning" then "⚠️ אחוז גבוה של ערכים חריגים - מומלץ לבדוק" else
  if key = "recommendations_title" then "המלצות לשיפור הנתונים" else
  if key = "high_correlations" then "🎯 נמצאו קורלציות גבוהות מאוד - שקול הסרת עמודות מיותרות למניעת רב-קווטיות במודלים" else
  if key = "medium_correlations" then "💡 נמצאו קורלציות חזקות - בדוק קשרים סיבתיים או זהה תופעות עסקיות מעניינות" else
  if key = "low_outliers" then "🎯 ערכים חריגים מעטים זוהו - בדוק ידנית ושקול האם להשאיר או להסיר לפי הקשר העסקי" else
  if key = "check_data_quality" then "💡 בדוק תמיד את איכות הנתונים לפני ביצוע ניתוח מתקדם - זה חוסך זמן ומבטיח תוצאות מדויקות" else
  if key = "backup_original" then "💡 שמור גרסת גיבוי של הנתונים המקוריים לפני ביצוע שינויים - זה מאפשר חזרה למצב הקודם במקרה הצורך" else
  if key = "document_changes" then "💡 תעד את כל השינויים שביצעת בנתונים לשחזור עתידי - זה חיוני לשקיפות ולחזרה על התהליך" else
  if key = "validate_assumptions" then "💡 בדוק הנחות הניתוח שלך מול התוצאות שקיבלת - זה מבטיח שהמסקנות נכונות ורלוונטיות" else
  if key = "use_visualizations" then "💡 השתמש בויזואליזציות להבנה טובה יותר של הנתונים - גרפים חושפים דפוסים שקשה לזהות בטבלאות" else
  key

/-- The library and formatting calls of the section code, as an explicit
environment: `w` is `pdf.get_string_width`, `memUsage` is
`df.memory_usage(deep=True).sum()` in bytes, `toStringLines` and
`describeLines` are the line-split pandas text renderings,
`std`/`skew` the two non-rational series statistics, `dupRows` is
`df.duplicated().sum()`, and `fmt…`/`showQ` are Python's numeric string
formattings (`:.2f`, `:.1f`, `:.0f`, `:,`, `str`). -/
structure PdEnv where
  w : List Char → ℚ
  memUsage : DataFrame → ℕ
  toStringLines : DataFrame → List String
  describeLines : DataFrame → List String
  std : List ℚ → ℚ
  skew : List ℚ → ℚ
  dupRows : DataFrame → ℕ
  fmt2 : ℚ → String
  fmt1 : ℚ → String
  fmt0 : ℚ → String
  fmtN : ℕ → String
  showQ : ℚ → String

/-- `add_text` (src/pdf_report.py lines 451–478): wrap the text to the
width `page_width − 2·margin − indent = 170 − indent`, then render the
stripped nonempty lines (an all-whitespace wrapped line only advances
the cursor and renders nothing). -/
def addText (env : PdEnv) (indent : ℚ) (text : String) : List String :=
  (wrapTextRtl env.w (170 - indent) text.data).filterMap fun line =>
    if (stripWs line).isEmpty then none else some (String.mk (stripWs line))

/-- `sum`, exact mean of a series (`series.mean()`). -/
def meanQ (l : List ℚ) : ℚ := l.sum / (l.length : ℚ)

def insertAsc (x : ℚ) : List ℚ → List ℚ
  | [] => [x]
  | y :: t => if x ≤ y then x :: y :: t else y :: insertAsc x t

def sortQ (l : List ℚ) : List ℚ := l.foldr insertAsc []

/-- `series.quantile(q)` with pandas' linear interpolation, exact on
rationals. -/
def quantileQ (l : List ℚ) (q : ℚ) : ℚ :=
  let s := sortQ l
  let pos : ℚ := q * ((s.length : ℚ) - 1)
  let i : ℕ := (⌊pos⌋).toNat
  let frac : ℚ := pos - (i : ℚ)
  let lo := s.getD i 0
  let hi := s.getD (i + 1) lo
  lo + frac * (hi - lo)

/-- `series.median()` (the 0.5 quantile). -/
def medianQ (l : List ℚ) : ℚ := quantileQ l (1 / 2)

/-- `series.min()`. -/
def minQ (l : List ℚ) : ℚ := (sortQ l).headD 0

/-- `series.max()`. -/
def maxQ (l : List ℚ) : ℚ := (sortQ l).getLastD 0

/-- The distinct values of a list in first-appearance order. -/
def distinctInOrder {α : Type} [DecidableEq α] (l : List α) : List α :=
  l.foldl (fun acc a => if a ∈ acc then acc else acc ++ [a]) []

/-- Stable insertion by descending count. -/
def insertDesc {α : Type} (p : α × ℕ) : List (α × ℕ) → List (α × ℕ)
  | [] => [p]
  | q :: t => if q.2 ≤ p.2 then p :: q :: t else q :: insertDesc p t

def sortCountDesc {α : Type} : List (α × ℕ) → List (α × ℕ)
  | [] => []
  | p :: t => insertDesc p (sortCountDesc t)

/-- `series.value_counts()`: the distinct non-null values with their
multiplicities, most frequent first (ties keep first-appearance order;
pandas leaves the tie order unspecified). -/
def valueCounts {α : Type} [DecidableEq α] (cells : List (Option α)) : List (α × ℕ) :=
  let vals := cells.filterMap id
  sortCountDesc ((distinctInOrder vals).map fun v => (v, vals.count v))

/-- `series.nunique()`. -/
def nuniqueCells {α : Type} [DecidableEq α] (cells : List (Option α)) : ℕ :=
  (distinctInOrder (cells.filterMap id)).length

/-- The null count of one column (`df[col].isnull().sum()`). -/
def ColData.nullCount : ColData → ℕ
  | .obj cs => cs.countP fun v => v.isNone
  | .num cs => cs.countP fun v => v.isNone
  | .dt cs => cs.countP fun v => v.isNone

def ColData.isObjCol : ColData → Bool
  | .obj _ => true
  | _ => false

def ColData.isNumCol : ColData → Bool
  | .num _ => true
  | _ => false

def ColData.isDtCol : ColData → Bool
  | .dt _ => true
  | _ => false

/-- One rendered report section: a header and its content lines. Each
guaranteed-section method emits its header exactly once on the
non-raising path modelled here. -/
structure RSection where
  title : String
  lines : List String
deriving DecidableEq

def ColData.takeCells (n : ℕ) : ColData → ColData
  | .obj cs => .obj (cs.take n)
  | .num cs => .num (cs.take n)
  | .dt cs => .dt (cs.take n)

/-- `df.head(5).iloc[:, :5]` (line 923). -/
def DataFrame.previewFrame (df : DataFrame) : DataFrame :=
  ⟨min df.nRows 5, (df.cols.take 5).map fun c => { c with data := c.data.takeCells 5 }⟩

/-- `add_data_preview_section` (src/pdf_report.py lines 905–940). -/
def dataPreviewSection (env : PdEnv) (df : DataFrame) : RSection :=
  let previewLines := env.toStringLines df.previewFrame
  { title := tHe "data_preview_title"
    lines :=
      addText env 0 (tHe "data_shape" ++ ": " ++ env.fmtN df.nRows ++ " " ++
        tHe "rows" ++ " × " ++ toString df.cols.length ++ " " ++ tHe "columns") ++
      addText env 0 (tHe "memory_usage" ++ ": " ++
        env.fmt2 ((env.memUsage df : ℚ) / (1024 * 1024)) ++ " " ++ tHe "megabytes") ++
      addText env 0 (tHe "data_preview_description") ++
      ((previewLines.take 10).map (addText env 10)).flatten ++
      (if previewLines.length > 10 then addText env 10 "..." else []) }

/-- `f"{col[:15]:15}"`: truncate to 15 characters, left-justified pad
to width 15. -/
def padRight15 (s : String) : String :=
  let t := s.data.take 15
  String.mk (t ++ List.replicate (15 - t.length) ' ')

/-- `_create_simple_missing_values_chart` (lines 1257–1272). -/
def missingChartLines (env : PdEnv) (missing : List (String × ℕ)) : List String :=
  let maxVal := (missing.map Prod.snd).foldr max 0
  addText env 5 "\nMissing Values Visualization:" ++
  ((missing.take 5).map fun p =>
    let barLen := if 0 < maxVal then (p.2 * 20) / maxVal else 0
    addText env 10 (padRight15 p.1 ++ " " ++
      String.mk (List.replicate barLen '█' ++ List.replicate (20 - barLen) '░') ++
      " " ++ env.fmtN p.2)).flatten

/-- `add_missing_values_section` (src/pdf_report.py lines 942–978). -/
def missingValuesSection (env : PdEnv) (df : DataFrame) : RSection :=
  let missingCounts := df.cols.map fun c => (c.name, c.data.nullCount)
  let total := (missingCounts.map Prod.snd).sum
  { title := tHe "missing_values_title"
    lines :=
      if total = 0 then addText env 0 (tHe "no_missing_values")
      else
        let withVals := sortCountDesc (missingCounts.filter fun p => 0 < p.2)
        addText env 0 (tHe "missing_values_found") ++
        (withVals.map fun p =>
          addText env 5 ("• " ++ p.1 ++ ": " ++ env.fmtN p.2 ++ " (" ++
            env.fmt1 ((p.2 : ℚ) / (df.nRows : ℚ) * 100) ++ "%)")).flatten ++
        addText env 0 (tHe "total_missing" ++ ": " ++ env.fmtN total) ++
        missingChartLines env withVals }

/-- The per-column body of the categorical loop (lines 1000–1030),
with the values already rendered to strings (`str(value)`). -/
def catBlock (env : PdEnv) (nRows : ℕ) (name : String) (uniq : ℕ)
    (vcs : List (String × ℕ)) : List String :=
  addText env 0 ("\n" ++ tHe "column" ++ ": " ++ name) ++
  addText env 5 (tHe "unique_values" ++ ": " ++ env.fmtN uniq) ++
  addText env 5 (tHe "top_values" ++ ":") ++
  ((vcs.take 10).map fun p =>
    let vstr := if 30 < p.1.data.length then String.mk (p.1.data.take 30) ++ "..." else p.1
    addText env 15 ("  • " ++ vstr ++ ": " ++ env.fmtN p.2 ++ " (" ++
      env.fmt1 ((p.2 : ℚ) / (nRows : ℚ) * 100) ++ "%)")).flatten ++
  (if 10 < vcs.length then
    let otherCount := ((vcs.drop 10).map Prod.snd).sum
    addText env 15 ("  • " ++ tHe "other_values" ++ ": " ++ env.fmtN otherCount ++
      " (" ++ env.fmt1 ((otherCount : ℚ) / (nRows : ℚ) * 100) ++ "%)")
   else [])

/-- `add_categorical_distributions_section` (src/pdf_report.py
lines 980–1036): the object columns, then the numeric columns with
cardinality in (1, 10]. -/
def categoricalSection (env : PdEnv) (df : DataFrame) : RSection :=
  let objCols := df.cols.filter fun c => c.data.isObjCol
  let numLowCard := df.cols.filter fun c =>
    match c.data with
    | .num cells => decide (nuniqueCells cells ≤ 10 ∧ 1 < nuniqueCells cells)
    | _ => false
  let catCols := objCols ++ numLowCard
  { title := tHe "categorical_title"
    lines :=
      if catCols.isEmpty then addText env 0 (tHe "no_categorical_data")
      else
        addText env 0 (tHe "categorical_description") ++
        ((catCols.take 5).map fun c =>
          match c.data with
          | .obj cells => catBlock env df.nRows c.name (nuniqueCells cells) (valueCounts cells)
          | .num cells => catBlock env df.nRows c.name (nuniqueCells cells)
              ((valueCounts cells).map fun p => (env.showQ p.1, p.2))
          | .dt _ => []).flatten }

/-- The per-column body of the numeric loop (lines 1054–1082). -/
def numBlock (env : PdEnv) (name : String) (series : List ℚ) : List String :=
  addText env 0 ("\n" ++ tHe "column" ++ ": " ++ name) ++
  (if series.isEmpty then addText env 5 "No valid numeric data in this column"
   else
    addText env 5 (tHe "statistics" ++ ":") ++
    (([(tHe "mean", meanQ series), (tHe "median", medianQ series),
       (tHe "std", env.std series), (tHe "min", minQ series),
       (tHe "max", maxQ series), (tHe "q25", quantileQ series (1 / 4)),
       (tHe "q75", quantileQ series (3 / 4))].map fun p =>
        addText env 15 ("  • " ++ p.1 ++ ": " ++ env.fmt2 p.2)).flatten) ++
    (let sk := env.skew series
     if 1 < |sk| then
       addText env 15 ("  • הטיה: " ++ (if 0 < sk then "ימינה" else "שמאלה") ++
         " (" ++ env.fmt2 sk ++ ")")
     else []))

/-- `add_numeric_distributions_section` (src/pdf_report.py
lines 1038–1092). -/
def numericSection (env : PdEnv) (df : DataFrame) : RSection :=
  let numCols := df.cols.filter fun c => c.data.isNumCol
  { title := tHe "numeric_title"
    lines :=
      if numCols.isEmpty then addText env 0 (tHe "no_numeric_data")
      else
        addText env 0 (tHe "numeric_description") ++
        ((numCols.take 5).map fun c =>
          match c.data with
          | .num cells => numBlock env c.name (cells.filterMap id)
          | _ => []).flatten }

/-- `df.select_dtypes(include=[np.number])` as a frame. -/
def DataFrame.numOnly (df : DataFrame) : DataFrame :=
  { df with cols := df.cols.filter fun c => c.data.isNumCol }

/-- `add_statistical_summary_section` (src/pdf_report.py
lines 1094–1139). -/
def statsSummarySection (env : PdEnv) (df : DataFrame) : RSection :=
  let numCount := (df.cols.filter fun c => c.data.isNumCol).length
  let catCount := (df.cols.filter fun c => c.data.isObjCol).length
  let dtCount := (df.cols.filter fun c => c.data.isDtCol).length
  { title := tHe "stats_summary_title"
    lines :=
      addText env 0 (tHe "data_types_summary" ++ ":") ++
      addText env 5 ("• " ++ tHe "numeric_columns" ++ ": " ++ toString numCount) ++
      addText env 5 ("• " ++ tHe "categorical_columns" ++ ": " ++ toString catCount) ++
      addText env 5 ("• " ++ tHe "datetime_columns" ++ ": " ++ toString dtCount) ++
      (if 0 < numCount then
        let descLines := env.describeLines df.numOnly
        addText env 0 ("\n" ++ tHe "stats_summary_description") ++
        ((descLines.take 15).map (addText env 10)).flatten ++
        (if 15 < descLines.length then addText env 10 "..." else [])
      else addText env 5 "No numeric columns available for statistical summary") }

structure OutlierInfo where
  column : String
  count : ℕ
  pct : ℚ
  lower : ℚ
  upper : ℚ

/-- The IQR outlier detection for one column (lines 1157–1185). -/
def outlierInfoOf (c : DFCol) : Option OutlierInfo :=
  match c.data with
  | .num cells =>
    let series := cells.filterMap id
    if series.length < 4 then none
    else
      let q1 := quantileQ series (1 / 4)
      let q3 := quantileQ series (3 / 4)
      let iqr := q3 - q1
      let lo := q1 - 3 / 2 * iqr
      let hi := q3 + 3 / 2 * iqr
      let cnt := (series.filter fun x => x < lo || hi < x).length
      if 0 < cnt then
        some ⟨c.name, cnt, (cnt : ℚ) / (series.length : ℚ) * 100, lo, hi⟩
      else none
  | _ => none

/-- `add_outliers_section` for DataFrames (src/pdf_report.py
lines 1141–1211; this later definition shadows the dict-based method of
lines 786–805 in Python). -/
def outliersSection (env : PdEnv) (df : DataFrame) : RSection :=
  let numCols := df.cols.filter fun c => c.data.isNumCol
  { title := tHe "outliers_title"
    lines :=
      addText env 0 (tHe "outliers_description") ++
      (if numCols.isEmpty then
        addText env 5 "No numeric columns available for outlier detection"
       else
        let found := numCols.filterMap outlierInfoOf
        if found.isEmpty then addText env 0 (tHe "no_outliers_found")
        else
          addText env 0 (tHe "outliers_found") ++
          ((found.take 10).map fun o =>
            addText env 5 ("\n• " ++ o.column ++ ":") ++
            addText env 15 ("  " ++ tHe "outliers_count" ++ ": " ++ env.fmtN o.count ++
              " (" ++ env.fmt1 o.pct ++ "%)") ++
            addText env 15 ("  " ++ tHe "outlier_range" ++ ": " ++ env.fmt2 o.lower ++
              " - " ++ env.fmt2 o.upper) ++
            (if 10 < o.pct then addText env 15 ("  " ++ tHe "outlier_warning") else [])).flatten) }

/-! ### `add_recommendations_section` (src/pdf_report.py lines 807–899)

This section consumes the caller-supplied `analysis_results` dict.
Unlike the other guaranteed sections, its `except` clause only logs
(lines 898–899) and re-emits nothing, so a raise after the header
leaves the section title-only. The two raising operations reachable
from plain dict inputs — `basic_info['shape']` on a dict without the
key (`KeyError`) and the divisions by `shape[0] * shape[1]` or
`shape[0]` (`ZeroDivisionError`) — are modelled explicitly in
`Except`. -/

/-- The `basic_info` sub-dict of `analysis_results`: only the keys the
recommendations code reads are modelled; `none` is an absent key. -/
structure BasicInfo where
  nullCounts : Option (List (String × ℕ))
  shape : Option (ℕ × ℕ)
  duplicateRows : Option ℕ
  memoryUsage : Option ℕ
deriving DecidableEq

/-- The `analysis_results` dict: the keys the recommendations code
reads (`strong_correlations` entries reduced to their `correlation`
field). -/
structure AnalysisResults where
  basicInfo : Option BasicInfo
  strongCorrelations : Option (List ℚ)
  outliers : Option (List (String × ℕ))
deriving DecidableEq

def emptyBasicInfo : BasicInfo := ⟨none, none, none, none⟩

def emptyAnalysis : AnalysisResults := ⟨none, none, none⟩

/-- `', '.join`. -/
def joinComma : List String → String
  | [] => ""
  | [s] => s
  | s :: t => s ++ ", " ++ joinComma t

def recHighMissingData (pct : String) : String :=
  "🎯 אחוז גבוה מאוד של ערכים חסרים (" ++ pct ++
    "%) - בדוק את מקור הנתונים ושקול שיפור תהליכי איסוף הנתונים"

def recMediumMissingData (pct : String) : String :=
  "🎯 אחוז בינוני של ערכים חסרים (" ++ pct ++
    "%) - שקול השלמת נתונים באמצעות ממוצע, חציון או מודלים חזויים"

def recLowMissingData (pct : String) : String :=
  "✅ אחוז נמוך של ערכים חסרים (" ++ pct ++
    "%) - נתונים באיכות טובה, ניתן להמשיך בניתוח"

def recDuplicateRowsHigh (pct : String) : String :=
  "🎯 אחוז גבוה של שורות כפולות (" ++ pct ++
    "%) - מומלץ לנקות כפילויות לפני המשך הניתוח"

def recDuplicateRowsLow (count : String) : String :=
  "🎯 נמצאו מעט שורות כפולות (" ++ count ++
    ") - בדוק אם הן רלוונטיות או שגיאות במערכת"

def recHighOutliers (cols : String) : String :=
  "🎯 עמודות עם ערכים חריגים רבים: " ++ cols ++
    " - בדוק אם מדובר בשגיאות נתונים או תופעות אמיתיות"

def recSmallDataset (rows : String) : String :=
  "⚠️ מערך נתונים קטן (" ++ rows ++
    " שורות) - תוצאות הניתוח עלולות להיות לא יציבות, שקול איסוף נתונים נוספים"

def recLargeDataset (rows : String) : String :=
  "💡 מערך נתונים גדול (" ++ rows ++
    " שורות) - שקול דגימה אקראית לבדיקות מהירות ואופטימיזציה של ביצועים"

def recManyColumns (cols : String) : String :=
  "💡 מספר עמודות רב (" ++ cols ++
    ") - שקול בחירת תכונות (Feature Selection) לפני בניית מודלים"

def recHighMemory (mb : String) : String :=
  "💡 שימוש גבוה בזיכרון (" ++ mb ++
    "MB) - שקול אופטימיזציה של סוגי נתונים ועיבוד בחלקים"

/-- Lines 817–828: the missing-values recommendation. The direct
indexing `basic_info['shape']` raises `KeyError` when absent; the
division by `shape[0] * shape[1]` raises `ZeroDivisionError` when the
cell count is zero. -/
def recNullBlock (env : PdEnv) (bi : BasicInfo) : Except Unit (List String) :=
  match bi.nullCounts with
  | none => pure []
  | some ncs =>
    let totalNulls := (ncs.map Prod.snd).sum
    match bi.shape with
    | none => throw ()
    | some (r, c) =>
      if r * c = 0 then throw ()
      else
        let pct : ℚ := (totalNulls : ℚ) / ((r * c : ℕ) : ℚ) * 100
        if 30 < pct then pure [recHighMissingData (env.fmt1 pct)]
        else if 10 < pct then pure [recMediumMissingData (env.fmt1 pct)]
        else if 0 < pct then pure [recLowMissingData (env.fmt1 pct)]
        else pure []

/-- Lines 830–836: the duplicate-rows recommendation, with the same
`shape` hazards. -/
def recDupBlock (env : PdEnv) (bi : BasicInfo) : Except Unit (List String) :=
  match bi.duplicateRows with
  | some d =>
    if 0 < d then
      match bi.shape with
      | none => throw ()
      | some (r, _) =>
        if r = 0 then throw ()
        else
          let dpct : ℚ := (d : ℚ) / (r : ℚ) * 100
          if 5 < dpct then pure [recDuplicateRowsHigh (env.fmt1 dpct)]
          else pure [recDuplicateRowsLow (toString d)]
    else pure []
  | none => pure []

/-- Lines 838–846: the correlation recommendation. -/
def recCorrBlock (ar : AnalysisResults) : List String :=
  match ar.strongCorrelations with
  | some l =>
    let veryHigh := l.filter fun c => 9 / 10 < |c|
    if !veryHigh.isEmpty then [tHe "high_correlations"]
    else if !l.isEmpty then [tHe "medium_correlations"]
    else []
  | none => []

/-- Lines 848–859: the outliers recommendation. -/
def recOutlierBlock (ar : AnalysisResults) (df : DataFrame) : List String :=
  match ar.outliers with
  | some l =>
    let outPairs := l.filter fun p => 0 < p.2
    if !outPairs.isEmpty then
      let highCols := (outPairs.filter fun p =>
        (df.nRows : ℚ) * (5 / 100) < (p.2 : ℚ)).map Prod.fst
      if !highCols.isEmpty then [recHighOutliers (joinComma highCols)]
      else [tHe "low_outliers"]
    else []
  | none => []

/-- Lines 861–870: the dataset-size recommendations. -/
def recSizeBlock (env : PdEnv) (bi : BasicInfo) : List String :=
  let shp := bi.shape.getD (0, 0)
  (if shp.1 < 100 then [recSmallDataset (toString shp.1)]
   else if 1000000 < shp.1 then [recLargeDataset (env.fmtN shp.1)]
   else []) ++
  (if 50 < shp.2 then [recManyColumns (toString shp.2)] else [])

/-- Lines 872–876: the memory recommendation. -/
def recMemBlock (env : PdEnv) (bi : BasicInfo) : List String :=
  match bi.memoryUsage with
  | some m =>
    if 1000 < (m : ℚ) / (1024 * 1024) then
      [recHighMemory (env.fmt0 ((m : ℚ) / (1024 * 1024)))]
    else []
  | none => []

/-- Lines 878–887: the five general best practices. -/
def generalRecs : List String :=
  [tHe "check_data_quality", tHe "backup_original", tHe "document_changes",
   tHe "validate_assumptions", tHe "use_visualizations"]

/-- The recommendation-building body (lines 812–887); `.error` is a
raised exception. -/
def recommendationsBody (env : PdEnv) (ar : AnalysisResults) (df : DataFrame) :
    Except Unit (List String) := do
  let bi := ar.basicInfo.getD emptyBasicInfo
  let r1 ← recNullBlock env bi
  let r2 ← recDupBlock env bi
  pure (r1 ++ r2 ++ recCorrBlock ar ++ recOutlierBlock ar df ++
    recSizeBlock env bi ++ recMemBlock env bi ++ generalRecs)

/-- `add_recommendations_section` (src/pdf_report.py lines 807–899):
header, then the rendered recommendations; on a raise the handler only
logs, so nothing follows the header. -/
def recommendationsSection (env : PdEnv) (ar : AnalysisResults) (df : DataFrame) :
    RSection :=
  { title := tHe "recommendations_title"
    lines :=
      match recommendationsBody env ar df with
      | .error _ => []
      | .ok recs =>
        (recs.enum.map fun p =>
          if p.1 + 1 ≤ recs.length - 5 then addText env 5 ("🎯 " ++ p.2)
          else addText env 5 ("💡 " ++ p.2)).flatten }

/-- `add_guaranteed_sections` (src/pdf_report.py lines 1213–1255): the
seven stages in their fixed order; a `None` `analysis_results` becomes
the empty dict (line 1222). -/
def addGuaranteedSections (env : PdEnv) (df : DataFrame)
    (ar : Option AnalysisResults) : List RSection :=
  [dataPreviewSection env df,
   missingValuesSection env df,
   categoricalSection env df,
   numericSection env df,
   statsSummarySection env df,
   outliersSection env df,
   recommendationsSection env (ar.getD emptyAnalysis) df]

/-- `generate_comprehensive_report` (src/pdf_report.py
lines 1431–1532), reduced to the control flow that decides the returned
value: preprocessing, the empty guard of lines 1441–1443, and the
save-and-verify outcome of lines 1509–1520 abstracted as `saveOk`. When
preprocessing raises (duplicated labels), the outer `except` of
lines 1522–1532 attempts a partial save of the still-empty document and
returns the path only if the file exists — the same `saveOk`
abstraction covers that save. The emission of the title page, the
guaranteed sections and the charts does not influence the returned
path. -/
def generateComprehensiveReport (parse : String → Option ℤ) (saveOk : Bool)
    (df : DataFrame) (outputPath : String) : Option String :=
  match preprocess_df parse df with
  | .error _ => if saveOk then some outputPath else none
  | .ok processed =>
    if processed.empty then none
    else if saveOk then some outputPath else none

/-- `generate_complete_data_report` (src/pdf_report.py
lines 1535–1575): the empty-input guard of lines 1554–1556, then the
comprehensive report. -/
def generate_complete_data_report (parse : String → Option ℤ) (saveOk : Bool)
    (df : DataFrame) (outputPath : String) : Option String :=
  if df.empty then none
  else generateComprehensiveReport parse saveOk df outputPath

/-! ## Concrete instances used to evaluate the model -/

/-- A concrete library environment: the fallback width measure
`len(text) * 2` of `_get_text_width` and `str`-based renderings. -/
def sampleEnv : PdEnv :=
  { w := fun l => (l.length : ℚ) * 2
    memUsage := fun _ => 0
    toStringLines := fun _ => []
    describeLines := fun _ => []
    std := fun _ => 0
    skew := fun _ => 0
    dupRows := fun _ => 0
    fmt2 := fun q => toString q
    fmt1 := fun q => toString q
    fmt0 := fun q => toString q
    fmtN := fun n => toString n
    showQ := fun q => toString q }

/-- A filesystem on which exactly the DejaVu regular font exists. -/
def sampleFs : String → Bool :=
  fun p => p = "/usr/share/fonts/truetype/dejavu/DejaVuSans.ttf"

/-! ## Theorems -/

theorem head?_dropWhile_ne {α : Type} {p : α → Bool} {l : List α} {a : α}
    (h : (l.dropWhile p).head? = some a) : p a = false := by
  have hh := List.head?_dropWhile_not p l
  rw [h] at hh
  exact hh

theorem dropWhile_eq_self_of_head {α : Type} {p : α → Bool} {l : List α}
    (h : ∀ a, l.head? = some a → p a = false) : l.dropWhile p = l := by
  cases l with
  | nil => rfl
  | cons x xs =>
    have hx : p x = false := h x rfl
    simp [List.dropWhile_cons, hx]

theorem getLast?_dropWhile_of_ne_nil {α : Type} {p : α → Bool} {l : List α}
    (h : l.dropWhile p ≠ []) : (l.dropWhile p).getLast? = l.getLast? := by
  induction l with
  | nil => simp at h
  | cons x xs ih =>
    by_cases hx : p x
    · rw [List.dropWhile_cons_of_pos hx] at h ⊢
      have hxs : xs ≠ [] := by
        intro he
        subst he
        simp at h
      rw [ih h, List.getLast?_cons]
      cases hxe : xs.getLast? with
      | none =>
        exact absurd (List.getLast?_eq_none_iff.mp hxe) hxs
      | some b => rfl
    · rw [List.dropWhile_cons_of_neg hx]

theorem chain'_dropWhile {α : Type} {R : α → α → Prop} {p : α → Bool} {l : List α}
    (h : List.Chain' R l) : List.Chain' R (l.dropWhile p) := by
  induction l with
  | nil => exact h
  | cons x xs ih =>
    by_cases hx : p x
    · rw [List.dropWhile_cons_of_pos hx]
      exact ih h.tail
    · rwa [List.dropWhile_cons_of_neg hx]

theorem mem_stripBy {p : Char → Bool} {l : List Char} {c : Char}
    (h : c ∈ stripBy p l) : c ∈ l := by
  unfold stripBy at h
  rw [List.mem_reverse] at h
  have h2 := (List.dropWhile_sublist p).mem h
  rw [List.mem_reverse] at h2
  exact (List.dropWhile_sublist p).mem h2

theorem stripBy_eq_self {p : Char → Bool} {l : List Char}
    (h1 : ∀ a, l.head? = some a → p a = false)
    (h2 : ∀ a, l.getLast? = some a → p a = false) : stripBy p l = l := by
  unfold stripBy
  rw [dropWhile_eq_self_of_head h1, dropWhile_eq_self_of_head (by
    intro a ha
    rw [List.head?_reverse] at ha
    exact h2 a ha), List.reverse_reverse]

theorem getLast?_stripBy_ne {p : Char → Bool} {l : List Char} {a : Char}
    (h : (stripBy p l).getLast? = some a) : p a = false := by
  unfold stripBy at h
  rw [List.getLast?_reverse] at h
  exact head?_dropWhile_ne h

theorem head?_stripBy_ne {p : Char → Bool} {l : List Char} {a : Char}
    (h : (stripBy p l).head? = some a) : p a = false := by
  unfold stripBy at h
  rw [List.head?_reverse] at h
  have hne : (l.dropWhile p).reverse.dropWhile p ≠ [] := by
    intro he
    rw [he] at h
    simp at h
  rw [getLast?_dropWhile_of_ne_nil hne, List.getLast?_reverse] at h
  exact head?_dropWhile_ne h

theorem chain'_stripBy {R : Char → Char → Prop} {p : Char → Bool} {l : List Char}
    (hsymm : ∀ a b, R a b → R b a) (h : List.Chain' R l) :
    List.Chain' R (stripBy p l) := by
  unfold stripBy
  rw [List.chain'_reverse]
  have h1 : List.Chain' R ((l.dropWhile p).reverse.dropWhile p) := by
    apply chain'_dropWhile
    rw [List.chain'_reverse]
    exact List.Chain'.imp (fun a b hr => hsymm a b hr) (chain'_dropWhile h)
  exact List.Chain'.imp (fun a b hr => hsymm a b hr) h1

theorem mem_subNonWord {l : List Char} {c : Char} (h : c ∈ subNonWord l) :
    keepInNormalize c = true := by
  unfold subNonWord at h
  rw [List.mem_map] at h
  obtain ⟨a, _, ha⟩ := h
  by_cases hk : keepInNormalize a
  · rw [if_pos hk] at ha
    rwa [← ha]
  · rw [if_neg hk] at ha
    rw [← ha]
    decide

theorem mem_subNonWord_orig {l : List Char} {c : Char} (h : c ∈ subNonWord l) :
    c = '_' ∨ c ∈ l := by
  unfold subNonWord at h
  rw [List.mem_map] at h
  obtain ⟨a, hal, ha⟩ := h
  by_cases hk : keepInNormalize a
  · rw [if_pos hk] at ha
    right
    rwa [← ha]
  · rw [if_neg hk] at ha
    left
    exact ha.symm

theorem subNonWord_eq_self {l : List Char} (h : ∀ c ∈ l, keepInNormalize c = true) :
    subNonWord l = l := by
  unfold subNonWord
  have : List.map (fun c => if keepInNormalize c then c else '_') l = List.map id l :=
    List.map_congr_left (by
      intro a ha
      simp [h a ha])
  rw [this, List.map_id]

theorem mem_collapseWs {l : List Char} {c : Char} :
    ∀ {prev : Bool}, c ∈ collapseWs prev l → c = '_' ∨ (c ∈ l ∧ isPySpace c = false) := by
  induction l with
  | nil => intro prev h; simp [collapseWs] at h
  | cons x xs ih =>
    intro prev h
    unfold collapseWs at h
    by_cases hx : isPySpace x
    · rw [if_pos hx] at h
      by_cases hp : prev
      · subst hp
        rcases ih h with h1 | ⟨h2, h3⟩
        · exact Or.inl h1
        · exact Or.inr ⟨List.mem_cons_of_mem _ h2, h3⟩
      · simp only [hp, if_neg, Bool.false_eq_true, if_false, List.mem_cons] at h
        rcases h with h1 | h1
        · exact Or.inl h1
        · rcases ih h1 with h2 | ⟨h3, h4⟩
          · exact Or.inl h2
          · exact Or.inr ⟨List.mem_cons_of_mem _ h3, h4⟩
    · rw [if_neg hx] at h
      rcases List.mem_cons.mp h with h1 | h1
      · subst h1
        exact Or.inr ⟨List.mem_cons_self _ _, Bool.eq_false_iff.mpr hx⟩
      · rcases ih h1 with h2 | ⟨h3, h4⟩
        · exact Or.inl h2
        · exact Or.inr ⟨List.mem_cons_of_mem _ h3, h4⟩

theorem collapseWs_eq_self {l : List Char} (h : ∀ c ∈ l, isPySpace c = false) :
    ∀ prev, collapseWs prev l = l := by
  induction l with
  | nil => intro prev; rfl
  | cons x xs ih =>
    intro prev
    unfold collapseWs
    have hx : isPySpace x = false := h x (List.mem_cons_self _ _)
    rw [if_neg (by simp [hx])]
    rw [ih (fun c hc => h c (List.mem_cons_of_mem _ hc)) false]

theorem mem_collapseUnd {l : List Char} {c : Char} :
    ∀ {prev : Bool}, c ∈ collapseUnd prev l → c ∈ l := by
  induction l with
  | nil => intro prev h; simp [collapseUnd] at h
  | cons x xs ih =>
    intro prev h
    unfold collapseUnd at h
    by_cases hx : x = '_'
    · rw [if_pos hx] at h
      by_cases hp : prev
      · subst hp
        exact List.mem_cons_of_mem _ (ih h)
      · simp only [hp, Bool.false_eq_true, if_false, List.mem_cons] at h
        rcases h with h1 | h1
        · subst h1; rw [hx]; exact List.mem_cons_self _ _
        · exact List.mem_cons_of_mem _ (ih h1)
    · rw [if_neg hx] at h
      rcases List.mem_cons.mp h with h1 | h1
      · subst h1; exact List.mem_cons_self _ _
      · exact List.mem_cons_of_mem _ (ih h1)

theorem head?_collapseUnd_true {l : List Char} {a : Char}
    (h : (collapseUnd true l).head? = some a) : a ≠ '_' := by
  induction l with
  | nil => simp [collapseUnd] at h
  | cons x xs ih =>
    unfold collapseUnd at h
    by_cases hx : x = '_'
    · rw [if_pos hx] at h
      simp only [if_pos rfl] at h
      exact ih h
    · rw [if_neg hx] at h
      simp only [List.head?_cons, Option.some.injEq] at h
      subst h
      exact hx

theorem chain'_collapseUnd (l : List Char) :
    ∀ prev, List.Chain' NoTwoUnd (collapseUnd prev l) := by
  induction l with
  | nil => intro prev; simp [collapseUnd]
  | cons x xs ih =>
    intro prev
    unfold collapseUnd
    by_cases hx : x = '_'
    · rw [if_pos hx]
      by_cases hp : prev
      · simp only [hp, if_pos]
        exact ih true
      · simp only [hp, Bool.false_eq_true, if_false]
        rw [List.chain'_cons']
        refine ⟨?_, ih true⟩
        intro y hy
        have : (collapseUnd true xs).head? = some y := hy
        have hne := head?_collapseUnd_true this
        exact fun ⟨_, h2⟩ => hne h2
    · rw [if_neg hx]
      rw [List.chain'_cons']
      refine ⟨?_, ih false⟩
      intro y _
      exact fun ⟨h1, _⟩ => hx h1

theorem collapseUnd_id {l : List Char} (h : List.Chain' NoTwoUnd l) :
    collapseUnd false l = l ∧
      ((∀ a, l.head? = some a → a ≠ '_') → collapseUnd true l = l) := by
  induction l with
  | nil => exact ⟨rfl, fun _ => rfl⟩
  | cons x xs ih =>
    obtain ⟨hhead, htail⟩ := List.chain'_cons'.mp h
    obtain ⟨ih1, ih2⟩ := ih htail
    constructor
    · unfold collapseUnd
      by_cases hx : x = '_'
      · subst hx
        rw [if_pos rfl]
        simp only [Bool.false_eq_true, if_false]
        rw [ih2 (by
          intro a ha
          have hr := hhead a ha
          exact fun he => hr ⟨rfl, he⟩)]
      · rw [if_neg hx, ih1]
    · intro hh
      unfold collapseUnd
      have hx : x ≠ '_' := hh x rfl
      rw [if_neg hx, ih1]

theorem noTwoUnd_symm : ∀ a b : Char, NoTwoUnd a b → NoTwoUnd b a :=
  fun _ _ h hc => h ⟨hc.2, hc.1⟩

theorem stripUnderscore_eq (l : List Char) :
    stripUnderscore l = stripBy (· = '_') l := rfl

theorem mem_normCore {l : List Char} {c : Char} (hc : c ∈ normCore l) :
    keepInNormalize c = true ∧ isPySpace c = false := by
  unfold normCore at hc
  rw [stripUnderscore_eq] at hc
  have h3 := mem_collapseUnd (mem_stripBy hc)
  rcases mem_collapseWs h3 with h1 | ⟨h2, hsp⟩
  · subst h1
    exact ⟨by decide, by decide⟩
  · exact ⟨mem_subNonWord h2, hsp⟩

theorem chain'_normCore (l : List Char) : List.Chain' NoTwoUnd (normCore l) := by
  unfold normCore
  rw [stripUnderscore_eq]
  exact chain'_stripBy noTwoUnd_symm (chain'_collapseUnd _ false)

theorem head?_normCore_ne (l : List Char) : (normCore l).head? ≠ some '_' := by
  intro h
  unfold normCore at h
  rw [stripUnderscore_eq] at h
  have := head?_stripBy_ne h
  simp at this

theorem getLast?_normCore_ne (l : List Char) : (normCore l).getLast? ≠ some '_' := by
  intro h
  unfold normCore at h
  rw [stripUnderscore_eq] at h
  have := getLast?_stripBy_ne h
  simp at this

theorem chain'_of_no_und {l : List Char} (h : ∀ c ∈ l, c ≠ '_') :
    List.Chain' NoTwoUnd l := by
  induction l with
  | nil => simp
  | cons x xs ih =>
    rw [List.chain'_cons']
    exact ⟨fun y _ hc => h x (List.mem_cons_self _ _) hc.1,
      ih fun c hc => h c (List.mem_cons_of_mem _ hc)⟩

theorem goodNorm_normalizeColumnNameL (l : List Char) :
    GoodNorm (normalizeColumnNameL l) := by
  unfold normalizeColumnNameL
  by_cases he : (normCore l).isEmpty
  · rw [if_pos he]
    refine ⟨by decide, by decide, chain'_of_no_und (by decide), by decide, by decide⟩
  · rw [if_neg he]
    have hne : normCore l ≠ [] := by
      intro h
      rw [h] at he
      exact he rfl
    exact ⟨hne, fun c hc => mem_normCore hc, chain'_normCore l,
      head?_normCore_ne l, getLast?_normCore_ne l⟩

theorem normCore_eq_self {l : List Char} (h : GoodNorm l) : normCore l = l := by
  obtain ⟨hne, hmem, hchain, hhead, hlast⟩ := h
  unfold normCore
  rw [stripUnderscore_eq]
  have h1 : stripWs l = l := by
    unfold stripWs
    apply stripBy_eq_self
    · intro a ha
      exact (hmem a (List.mem_of_mem_head? ha)).2
    · intro a ha
      exact (hmem a (List.mem_of_mem_getLast? ha)).2
  rw [h1]
  have h2 : subNonWord l = l :=
    subNonWord_eq_self (fun c hc => (hmem c hc).1)
  rw [h2]
  have h3 : collapseWs false l = l :=
    collapseWs_eq_self (fun c hc => (hmem c hc).2) false
  rw [h3]
  have h4 : collapseUnd false l = l := (collapseUnd_id hchain).1
  rw [h4]
  apply stripBy_eq_self
  · intro a ha
    have : a ≠ '_' := by
      intro hau
      rw [hau] at ha
      exact hhead ha
    exact decide_eq_false this
  · intro a ha
    have : a ≠ '_' := by
      intro hau
      rw [hau] at ha
      exact hlast ha
    exact decide_eq_false this

theorem normalizeColumnNameL_eq_self {l : List Char} (h : GoodNorm l) :
    normalizeColumnNameL l = l := by
  unfold normalizeColumnNameL
  rw [normCore_eq_self h]
  have : l.isEmpty = false := by
    cases l with
    | nil => exact absurd rfl h.1
    | cons x xs => rfl
  rw [this]
  simp

theorem normalizeColumnNameL_idem (l : List Char) :
    normalizeColumnNameL (normalizeColumnNameL l) = normalizeColumnNameL l :=
  normalizeColumnNameL_eq_self (goodNorm_normalizeColumnNameL l)

theorem normalizeColumnNameL_ne_nil (l : List Char) : normalizeColumnNameL l ≠ [] :=
  (goodNorm_normalizeColumnNameL l).1

/-! ### Facts about `clean_numeric_value` on whole input families -/

theorem contains_of_mem {l : List Char} {a : Char} (h : a ∈ l) :
    l.contains a = true :=
  List.elem_iff.mpr h

theorem contains_eq_false {l : List Char} {a : Char} (h : a ∉ l) :
    l.contains a = false :=
  Bool.eq_false_iff.mpr fun hc => h (List.elem_iff.mp hc)

theorem signSplit_not_sign {c : Char} {t : List Char} (h1 : c ≠ '+')
    (h2 : c ≠ '-') : signSplit (c :: t) = (none, c :: t) := by
  unfold signSplit
  split
  · rename_i heq
    rw [List.cons.injEq] at heq
    exact absurd heq.1 h1
  · rename_i heq
    rw [List.cons.injEq] at heq
    exact absurd heq.1 h2
  · rfl

theorem not_plus_of_digit {c : Char} (h : isPyDigit c = true) : c ≠ '+' := by
  intro he
  subst he
  exact absurd h (by decide)

theorem not_minus_of_digit {c : Char} (h : isPyDigit c = true) : c ≠ '-' := by
  intro he
  subst he
  exact absurd h (by decide)

/-- `float` of a pure nonempty digit string is its base-10 value. -/
theorem pyFloatParse_digits {d : List Char} (hne : d ≠ [])
    (hd : ∀ c ∈ d, isPyDigit c = true) :
    pyFloatParse d = some ((digitsVal d : ℚ)) := by
  obtain ⟨c, t, rfl⟩ := List.exists_cons_of_ne_nil hne
  have hc := hd c (List.mem_cons_self _ _)
  unfold pyFloatParse
  rw [signSplit_not_sign (not_plus_of_digit hc) (not_minus_of_digit hc)]
  simp only
  rw [List.takeWhile_eq_self_iff.mpr hd, List.dropWhile_eq_nil_iff.mpr hd]
  simp

/-- The number regex matches a maximal digit run followed by a
non-digit, non-dot character. -/
theorem matchNumAt_digits_then {d : List Char} {x : Char} {r : List Char}
    (hne : d ≠ []) (hd : ∀ c ∈ d, isPyDigit c = true)
    (hx : isPyDigit x = false) (hdot : x ≠ '.') :
    matchNumAt (d ++ x :: r) = some d := by
  obtain ⟨c, t, rfl⟩ := List.exists_cons_of_ne_nil hne
  have hc := hd c (List.mem_cons_self _ _)
  unfold matchNumAt
  rw [List.cons_append, signSplit_not_sign (not_plus_of_digit hc)
    (not_minus_of_digit hc), ← List.cons_append]
  simp only
  rw [List.takeWhile_append_of_pos hd, List.dropWhile_append_of_pos hd,
    List.takeWhile_cons_of_neg (by simp [hx]),
    List.dropWhile_cons_of_neg (by simp [hx])]
  simp only [List.append_nil]
  split
  · rename_i r3 heq
    rw [List.cons.injEq] at heq
    exact absurd heq.1 hdot
  · simp

theorem isPySpace_eq_false_of_digit {a : Char} (h : isPyDigit a = true) :
    isPySpace a = false := by
  unfold isPyDigit at h
  rw [Bool.and_eq_true, decide_eq_true_iff, decide_eq_true_iff] at h
  rw [Bool.eq_false_iff]
  intro hs
  unfold isPySpace at hs
  simp only [Bool.or_eq_true, decide_eq_true_iff, or_assoc] at hs
  omega

theorem not_digit_of_mem_digits {d : List Char} {a : Char}
    (hd : ∀ c ∈ d, isPyDigit c = true) (hnd : isPyDigit a = false)
    (hm : a ∈ d) : False := by
  rw [hd a hm] at hnd
  exact absurd hnd (by simp)

/-- `re.search` of the number regex on `digits ++ "%"` returns the digits. -/
theorem searchNum_digits_pct {d : List Char} (hne : d ≠ [])
    (hd : ∀ c ∈ d, isPyDigit c = true) : searchNum (d ++ ['%']) = some d := by
  obtain ⟨c, t, rfl⟩ := List.exists_cons_of_ne_nil hne
  rw [List.cons_append]
  unfold searchNum
  rw [← List.cons_append,
    matchNumAt_digits_then hne hd (by decide) (by decide)]

/-- The cleanup path on a value whose surviving characters are a pure
digit string: separators and `+`-stripping are no-ops and the sign comes
from the parenthesis test. -/
theorem cleanTail_of_filter_digits {vs d : List Char}
    (hfil : vs.filter keepNumChar = d) (hne : d ≠ [])
    (hd : ∀ c ∈ d, isPyDigit c = true) :
    cleanTail vs = some (if vs.contains '(' && vs.contains ')'
      then -(digitsVal d : ℚ) else (digitsVal d : ℚ)) := by
  have hcomma : d.contains ',' = false :=
    contains_eq_false fun hm => not_digit_of_mem_digits hd (by decide) hm
  have hdotc : d.count '.' = 0 :=
    List.count_eq_zero.mpr fun hm => not_digit_of_mem_digits hd (by decide) hm
  have h1 : commaDotFix d = d := by
    unfold commaDotFix
    rw [hcomma]
    simp
  have h2 : dotsFix d = d := by
    unfold dotsFix
    rw [hdotc]
    simp
  obtain ⟨c, t, hct⟩ := List.exists_cons_of_ne_nil hne
  have hdrop : d.dropWhile (· = '+') = d := by
    rw [hct]
    exact List.dropWhile_cons_of_neg (by
      simp [not_plus_of_digit (hd c (by rw [hct]; exact List.mem_cons_self _ _))])
  have hemp : d.isEmpty = false := by
    rw [hct]
    rfl
  unfold cleanTail
  simp only [hfil, hemp, Bool.false_eq_true, if_false, h1, h2, hdrop,
    pyFloatParse_digits hne hd]

/-- `clean_numeric_value` on a parenthesised digit string `"(d…d)"`:
the parentheses are detected as a negative sign and stripped. -/
theorem cleanNumericValue_paren {d : List Char} (hne : d ≠ [])
    (hd : ∀ c ∈ d, isPyDigit c = true) :
    cleanNumericValue ⟨'(' :: (d ++ [')'])⟩ = some (-(digitsVal d : ℚ)) := by
  show cleanNumericValueL ('(' :: (d ++ [')'])) = some (-(digitsVal d : ℚ))
  unfold cleanNumericValueL
  have hnan : ¬('(' :: (d ++ [')']) = "nan".data) := by
    intro h
    have h2 := congrArg List.head? h
    rw [List.head?_cons, show ("nan".data).head? = some 'n' from rfl] at h2
    exact absurd (Option.some.inj h2) (by decide)
  rw [if_neg hnan]
  have hstrip : stripWs ('(' :: (d ++ [')'])) = '(' :: (d ++ [')']) := by
    unfold stripWs
    apply stripBy_eq_self
    · intro a ha
      rw [List.head?_cons, Option.some.injEq] at ha
      rw [← ha]; decide
    · intro a ha
      rw [← List.cons_append, List.getLast?_concat, Option.some.injEq] at ha
      rw [← ha]; decide
  rw [hstrip]
  unfold cleanBody
  rw [List.isEmpty_cons]
  simp only [Bool.false_eq_true, if_false]
  have hpct : ('(' :: (d ++ [')'])).contains '%' = false := by
    apply contains_eq_false
    intro hm
    rcases List.mem_cons.mp hm with he | hm2
    · exact absurd he (by decide)
    · rcases List.mem_append.mp hm2 with hm3 | hm4
      · exact not_digit_of_mem_digits hd (by decide) hm3
      · exact absurd (List.mem_singleton.mp hm4) (by decide)
  rw [hpct]
  simp only [Bool.false_eq_true, if_false]
  have hfil : ('(' :: (d ++ [')'])).filter keepNumChar = d := by
    rw [List.filter_cons_of_neg (by decide), List.filter_append,
      List.filter_eq_self.mpr (fun a ha => by
        unfold keepNumChar
        rw [hd a ha]
        simp),
      show List.filter keepNumChar [')'] = [] from rfl, List.append_nil]
  rw [cleanTail_of_filter_digits hfil hne hd]
  rw [contains_of_mem (List.mem_cons_self _ _),
    contains_of_mem (List.mem_cons_of_mem _
      (List.mem_append_right _ (List.mem_singleton.mpr rfl)))]
  simp

/-- `clean_numeric_value` on a digit string with a `%` suffix: the
matched number is divided by 100. -/
theorem cleanNumericValue_pct {d : List Char} (hne : d ≠ [])
    (hd : ∀ c ∈ d, isPyDigit c = true) :
    cleanNumericValue ⟨d ++ ['%']⟩ = some ((digitsVal d : ℚ) / 100) := by
  show cleanNumericValueL (d ++ ['%']) = some ((digitsVal d : ℚ) / 100)
  unfold cleanNumericValueL
  have hnan : ¬(d ++ ['%'] = "nan".data) := by
    intro h
    have h2 := congrArg List.getLast? h
    rw [List.getLast?_concat, show ("nan".data).getLast? = some 'n' from rfl] at h2
    exact absurd (Option.some.inj h2) (by decide)
  rw [if_neg hnan]
  obtain ⟨c, t, rfl⟩ := List.exists_cons_of_ne_nil hne
  have hstrip : stripWs ((c :: t) ++ ['%']) = (c :: t) ++ ['%'] := by
    unfold stripWs
    apply stripBy_eq_self
    · intro a ha
      rw [List.cons_append, List.head?_cons, Option.some.injEq] at ha
      rw [← ha]
      exact isPySpace_eq_false_of_digit (hd c (List.mem_cons_self _ _))
    · intro a ha
      rw [List.getLast?_concat, Option.some.injEq] at ha
      rw [← ha]; decide
  rw [hstrip]
  unfold cleanBody
  rw [List.cons_append, List.isEmpty_cons]
  simp only [Bool.false_eq_true, if_false]
  rw [← List.cons_append,
    contains_of_mem (List.mem_append_right _ (List.mem_singleton.mpr rfl))]
  simp only [if_true]
  rw [searchNum_digits_pct hne hd]
  rw [Option.some_bind, pyFloatParse_digits hne hd]
  simp

/-- `clean_numeric_value` on a currency-prefixed digit string `"₪d…d"`:
the currency symbol is stripped. -/
theorem cleanNumericValue_currency {d : List Char} (hne : d ≠ [])
    (hd : ∀ c ∈ d, isPyDigit c = true) :
    cleanNumericValue ⟨'₪' :: d⟩ = some ((digitsVal d : ℚ)) := by
  show cleanNumericValueL ('₪' :: d) = some ((digitsVal d : ℚ))
  unfold cleanNumericValueL
  have hnan : ¬('₪' :: d = "nan".data) := by
    intro h
    have h2 := congrArg List.head? h
    rw [List.head?_cons, show ("nan".data).head? = some 'n' from rfl] at h2
    exact absurd (Option.some.inj h2) (by decide)
  rw [if_neg hnan]
  obtain ⟨c, t, rfl⟩ := List.exists_cons_of_ne_nil hne
  have hstrip : stripWs ('₪' :: c :: t) = '₪' :: c :: t := by
    unfold stripWs
    apply stripBy_eq_self
    · intro a ha
      rw [List.head?_cons, Option.some.injEq] at ha
      rw [← ha]; decide
    · intro a ha
      rw [List.getLast?_cons_cons] at ha
      have ham := List.mem_of_mem_getLast? ha
      exact isPySpace_eq_false_of_digit (hd a ham)
  rw [hstrip]
  unfold cleanBody
  rw [List.isEmpty_cons]
  simp only [Bool.false_eq_true, if_false]
  have hpct : ('₪' :: c :: t).contains '%' = false := by
    apply contains_eq_false
    intro hm
    rcases List.mem_cons.mp hm with he | hm2
    · exact absurd he (by decide)
    · exact not_digit_of_mem_digits hd (by decide) hm2
  rw [hpct]
  simp only [Bool.false_eq_true, if_false]
  have hfil : ('₪' :: c :: t).filter keepNumChar = c :: t := by
    rw [List.filter_cons_of_neg (by decide),
      List.filter_eq_self.mpr (fun a ha => by
        unfold keepNumChar
        rw [hd a ha]
        simp)]
  rw [cleanTail_of_filter_digits hfil hne hd]
  have hnopar : ('₪' :: c :: t).contains '(' = false := by
    apply contains_eq_false
    intro hm
    rcases List.mem_cons.mp hm with he | hm2
    · exact absurd he (by decide)
    · exact not_digit_of_mem_digits hd (by decide) hm2
  rw [hnopar]
  simp

/-- Below the 50 % success threshold, `coerce_numeric` keeps the column
byte-for-byte. -/
theorem coerceNumeric_kept {col : List (Option String)}
    (h : ((nonNullCount (col.map convertCell) : ℚ) / (nonNullCount col : ℚ) < 1 / 2)) :
    coerceNumeric col = .kept col := by
  unfold coerceNumeric
  rw [if_neg]
  intro hc
  exact absurd hc.2 (not_le.mpr h)

/-- At or above the 50 % success threshold (with at least one non-null
original), `coerce_numeric` returns the converted column. -/
theorem coerceNumeric_converted {col : List (Option String)}
    (h0 : 0 < nonNullCount col)
    (h : ((nonNullCount (col.map convertCell) : ℚ) / (nonNullCount col : ℚ) ≥ 1 / 2)) :
    coerceNumeric col = .converted (col.map convertCell) := by
  unfold coerceNumeric
  rw [if_pos ⟨h0, h⟩]

/-- Below the 60 % success threshold, the date coercion keeps the column
byte-for-byte, whatever the sampling gate says. -/
theorem dateCoerceColumn_kept (parse : String → Option ℤ) {col : List (Option String)}
    (h : ((nonNullCount (col.map fun v => v.bind parse) : ℚ) /
      (nonNullCount col : ℚ) < 3 / 5)) :
    dateCoerceColumn parse col = .kept col := by
  simp only [dateCoerceColumn]
  split_ifs with h1 h2 h3
  · rfl
  · exact absurd h3.2 (not_le.mpr h)
  · rfl
  · rfl

/-- At or above the 60 % success threshold, with the sampling gate
passed and at least one non-null original, the date coercion returns the
parsed column. -/
theorem dateCoerceColumn_converted (parse : String → Option ℤ)
    {col : List (Option String)} (hg : dateGate col)
    (h0 : 0 < nonNullCount col)
    (h : ((nonNullCount (col.map fun v => v.bind parse) : ℚ) /
      (nonNullCount col : ℚ) ≥ 3 / 5)) :
    dateCoerceColumn parse col = .converted (col.map fun v => v.bind parse) := by
  simp only [dateCoerceColumn]
  rw [if_neg (by rw [hg.1]; simp), if_pos hg.2, if_pos ⟨h0, h⟩]

/-! ### Column names through the preprocessing pipeline -/

theorem stripWs_eq (l : List Char) : stripWs l = stripBy isPySpace l := rfl

theorem mem_normCore_orig {l : List Char} {ch : Char} (hc : ch ∈ normCore l) :
    ch = '_' ∨ ch ∈ l := by
  unfold normCore at hc
  rw [stripUnderscore_eq] at hc
  have h3 := mem_collapseUnd (mem_stripBy hc)
  rcases mem_collapseWs h3 with h1 | ⟨h2, _⟩
  · exact Or.inl h1
  · rcases mem_subNonWord_orig h2 with h4 | h5
    · exact Or.inl h4
    · rw [stripWs_eq] at h5
      exact Or.inr (mem_stripBy h5)

/-- Normalising a name made of ASCII and Hebrew-block characters yields
only characters of the claimed identifier class. -/
theorem normalize_chars {l : List Char}
    (h : ∀ ch ∈ l, ch.toNat < 128 ∨ isHebrewBlock ch = true) :
    ∀ ch ∈ normalizeColumnNameL l, specIdentChar ch = true := by
  intro ch hch
  unfold normalizeColumnNameL at hch
  by_cases he : (normCore l).isEmpty
  · rw [if_pos he] at hch
    fin_cases hch <;> decide
  · rw [if_neg he] at hch
    obtain ⟨hk, hs⟩ := mem_normCore hch
    rcases mem_normCore_orig hch with rfl | hm
    · decide
    · rcases h ch hm with hlt | hhb
      · simp only [keepInNormalize, isPyWord, isHebrewBlock, isLatin1Letter,
          isPySpace, isAsciiLetter, isPyDigit, specIdentChar, Bool.or_eq_true,
          Bool.and_eq_true, decide_eq_true_iff, Bool.or_eq_false_iff,
          decide_eq_false_iff_not] at hk hs ⊢
        omega
      · unfold specIdentChar
        rw [hhb]
        simp

theorem mem_cols_renameCols {df : DataFrame} {c : DFCol}
    (h : c ∈ (renameCols df).cols) :
    ∃ c₀ ∈ df.cols, c.name = normalize_column_name c₀.name := by
  unfold renameCols at h
  simp only [List.mem_map] at h
  obtain ⟨c₀, hm, he⟩ := h
  exact ⟨c₀, hm, by rw [← he]⟩

theorem mem_cols_dateParseCols {parse : String → Option ℤ}
    {df : DataFrame} {c : DFCol} (h : c ∈ (dateParseCols parse df).cols) :
    ∃ c₀ ∈ df.cols, c.name = c₀.name := by
  unfold dateParseCols at h
  simp only [List.mem_map] at h
  obtain ⟨c₀, hm, he⟩ := h
  refine ⟨c₀, hm, ?_⟩
  rw [← he]
  cases c₀ with
  | mk nm dat =>
    cases dat with
    | obj cells =>
      simp only
      cases dateCoerceColumn parse cells <;> rfl
    | num cells => rfl
    | dt cells => rfl

theorem mem_cols_numericCoerceCols {df : DataFrame} {c : DFCol}
    (h : c ∈ (numericCoerceCols df).cols) :
    ∃ c₀ ∈ df.cols, c.name = c₀.name := by
  unfold numericCoerceCols at h
  simp only [List.mem_map] at h
  obtain ⟨c₀, hm, he⟩ := h
  refine ⟨c₀, hm, ?_⟩
  rw [← he]
  cases c₀ with
  | mk nm dat =>
    cases dat with
    | obj cells =>
      simp only
      split_ifs
      · rfl
      · cases coerceNumeric cells <;> rfl
      · rfl
    | num cells => rfl
    | dt cells => rfl

theorem mem_cols_dropEmptyRows {df : DataFrame} {c : DFCol}
    (h : c ∈ (dropEmptyRows df).cols) :
    ∃ c₀ ∈ df.cols, c.name = c₀.name := by
  unfold dropEmptyRows at h
  simp only [List.mem_map] at h
  obtain ⟨c₀, hm, he⟩ := h
  exact ⟨c₀, hm, by rw [← he]⟩

theorem mem_cols_dropEmptyCols {df : DataFrame} {c : DFCol}
    (h : c ∈ (dropEmptyCols df).cols) : c ∈ df.cols :=
  List.mem_of_mem_filter h

theorem detectAndParseDates_ok {parse : String → Option ℤ} {df d2 : DataFrame}
    (h : detectAndParseDates parse df = .ok d2) : d2 = dateParseCols parse df := by
  unfold detectAndParseDates at h
  by_cases hdup : dupLabel df = true
  · rw [if_pos hdup] at h
    exact absurd h (by simp)
  · rw [if_neg hdup] at h
    exact (Except.ok.inj h).symm

theorem numericCoercePass_ok {df d3 : DataFrame}
    (h : numericCoercePass df = .ok d3) : d3 = numericCoerceCols df := by
  unfold numericCoercePass at h
  by_cases hdup : dupLabel df = true
  · rw [if_pos hdup] at h
    exact absurd h (by simp)
  · rw [if_neg hdup] at h
    exact (Except.ok.inj h).symm

/-- Every column name of a frame that `preprocess_df` returns without
raising, on a nonempty input, is the normalisation of some input column
name. -/
theorem preprocess_name {parse : String → Option ℤ} {df df' : DataFrame} {c : DFCol}
    (hok : preprocess_df parse df = .ok df') (hne : df.empty = false)
    (h : c ∈ df'.cols) :
    ∃ c₀ ∈ df.cols, c.name = normalize_column_name c₀.name := by
  unfold preprocess_df at hok
  rw [if_neg (by simp [hne])] at hok
  cases hd : detectAndParseDates parse (renameCols df) with
  | error e =>
    rw [hd] at hok
    dsimp only at hok
    exact absurd hok (by simp)
  | ok d2 =>
    rw [hd] at hok
    dsimp only at hok
    cases hn : numericCoercePass d2 with
    | error e =>
      rw [hn] at hok
      dsimp only at hok
      exact absurd hok (by simp)
    | ok d3 =>
      rw [hn] at hok
      dsimp only at hok
      have hdf : df' = dropEmptyCols (dropEmptyRows d3) := (Except.ok.inj hok).symm
      rw [hdf, numericCoercePass_ok hn, detectAndParseDates_ok hd] at h
      obtain ⟨c₁, hm1, he1⟩ := mem_cols_dropEmptyRows (mem_cols_dropEmptyCols h)
      obtain ⟨c₂, hm2, he2⟩ := mem_cols_numericCoerceCols hm1
      obtain ⟨c₃, hm3, he3⟩ := mem_cols_dateParseCols hm2
      obtain ⟨c₀, hm0, he0⟩ := mem_cols_renameCols hm3
      exact ⟨c₀, hm0, by rw [he1, he2, he3, he0]⟩

theorem checkRepositoryFonts_fst {fs : String → Bool} {baseDir : String} :
    fsOk fs (checkRepositoryFonts fs baseDir).1 := by
  unfold checkRepositoryFonts
  dsimp only
  split_ifs with hf
  · exact hf
  · trivial

theorem checkRepositoryFonts_snd {fs : String → Bool} {baseDir : String} :
    fsOk fs (checkRepositoryFonts fs baseDir).2 := by
  unfold checkRepositoryFonts
  dsimp only
  split_ifs with hf
  · exact hf
  · trivial

theorem checkEnvironmentFonts_fst {fs : String → Bool} {env : String → Option String} :
    fsOk fs (checkEnvironmentFonts fs env).1 := by
  unfold checkEnvironmentFonts
  dsimp only
  cases env "REPORT_FONT_REGULAR" with
  | none => trivial
  | some p =>
    dsimp only
    split_ifs with hf
    · exact hf.2
    · trivial

theorem checkEnvironmentFonts_snd {fs : String → Bool} {env : String → Option String} :
    fsOk fs (checkEnvironmentFonts fs env).2 := by
  unfold checkEnvironmentFonts
  dsimp only
  cases env "REPORT_FONT_BOLD" with
  | none => trivial
  | some p =>
    dsimp only
    split_ifs with hf
    · exact hf.2
    · trivial

theorem scanLoop_fsOk {fs : String → Bool} :
    ∀ (ps : List String) (acc : Option String × Option String),
    fsOk fs acc.1 → fsOk fs acc.2 →
    fsOk fs (scanLoop fs ps acc).1 ∧ fsOk fs (scanLoop fs ps acc).2 := by
  intro ps
  induction ps with
  | nil =>
    intro acc h1 h2
    exact ⟨h1, h2⟩
  | cons p rest ih =>
    intro acc h1 h2
    obtain ⟨reg, bold⟩ := acc
    unfold scanLoop
    by_cases hfs : fs p
    · rw [if_pos hfs]
      by_cases hb : isBoldPath p
      · rw [if_pos hb]
        apply ih
        · exact h1
        · cases bold with
          | none => exact hfs
          | some q => exact h2
      · rw [if_neg hb]
        apply ih
        · cases reg with
          | none => exact hfs
          | some q => exact h1
        · exact h2
    · rw [if_neg hfs]
      exact ih _ h1 h2

theorem scanSystemFonts_fsOk {fs : String → Bool} {osk : OSKind} :
    fsOk fs (scanSystemFonts fs osk).1 ∧ fsOk fs (scanSystemFonts fs osk).2 :=
  scanLoop_fsOk _ _ trivial trivial

theorem downloadStep_fst {dlOk : String → Bool} {w p : String}
    {fs : String → Bool} : fsOk (downloadStep dlOk w p fs).2 (downloadStep dlOk w p fs).1 := by
  unfold downloadStep
  split_ifs with h1 h2
  · exact h1
  · show (decide (p = p) || fs p) = true
    simp
  · trivial

theorem downloadStep_mono {dlOk : String → Bool} {w p q : String}
    {fs : String → Bool} (h : fs q = true) : (downloadStep dlOk w p fs).2 q = true := by
  unfold downloadStep
  split_ifs
  · exact h
  · simp [h]
  · exact h

theorem downloadNotoFonts_fsOk {fs : String → Bool} {fontsDir : Option String}
    {dlOk : String → Bool} :
    fsOk (downloadNotoFonts fs fontsDir dlOk).2 (downloadNotoFonts fs fontsDir dlOk).1.1 ∧
    fsOk (downloadNotoFonts fs fontsDir dlOk).2 (downloadNotoFonts fs fontsDir dlOk).1.2 := by
  cases fontsDir with
  | none => exact ⟨trivial, trivial⟩
  | some dir =>
    unfold downloadNotoFonts
    dsimp only
    constructor
    · cases hr : (downloadStep dlOk "regular" (dir ++ "/NotoSansHebrew-Regular.ttf") fs).1 with
      | none => trivial
      | some p =>
        have := @downloadStep_fst dlOk "regular"
          (dir ++ "/NotoSansHebrew-Regular.ttf") fs
        rw [hr] at this
        exact downloadStep_mono this
    · exact downloadStep_fst

/-- Claim C7: `resolve_hebrew_fonts` returns either `(None, None)` or a
pair of two paths that exist on the resulting filesystem; never a pair
with exactly one `None` or with a nonexistent path. -/
theorem resolveHebrewFonts_sound (fs : String → Bool) (env : String → Option String)
    (baseDir : String) (osk : OSKind) (fontsDir : Option String)
    (dlOk : String → Bool) :
    (resolveHebrewFonts fs env baseDir osk fontsDir dlOk).1 = (none, none) ∨
    ∃ pr pb, (resolveHebrewFonts fs env baseDir osk fontsDir dlOk).1 = (some pr, some pb) ∧
      (resolveHebrewFonts fs env baseDir osk fontsDir dlOk).2 pr = true ∧
      (resolveHebrewFonts fs env baseDir osk fontsDir dlOk).2 pb = true := by
  simp only [resolveHebrewFonts]
  split_ifs with h1 h2 h3 h4
  · right
    rw [Bool.and_eq_true, Option.isSome_iff_exists, Option.isSome_iff_exists] at h1
    obtain ⟨⟨pr, hpr⟩, ⟨pb, hpb⟩⟩ := h1
    refine ⟨pr, pb, ?_, ?_, ?_⟩
    · dsimp only
      rw [← hpr, ← hpb]
    · have := @checkRepositoryFonts_fst fs baseDir
      rw [hpr] at this
      exact this
    · have := @checkRepositoryFonts_snd fs baseDir
      rw [hpb] at this
      exact this
  · right
    rw [Bool.and_eq_true, Option.isSome_iff_exists, Option.isSome_iff_exists] at h2
    obtain ⟨⟨pr, hpr⟩, ⟨pb, hpb⟩⟩ := h2
    refine ⟨pr, pb, ?_, ?_, ?_⟩
    · dsimp only
      rw [← hpr, ← hpb]
    · have := @checkEnvironmentFonts_fst fs env
      rw [hpr] at this
      exact this
    · have := @checkEnvironmentFonts_snd fs env
      rw [hpb] at this
      exact this
  · right
    rw [Bool.and_eq_true, Option.isSome_iff_exists, Option.isSome_iff_exists] at h3
    obtain ⟨⟨pr, hpr⟩, ⟨pb, hpb⟩⟩ := h3
    refine ⟨pr, pb, ?_, ?_, ?_⟩
    · dsimp only
      rw [← hpr, ← hpb]
    · have := (@scanSystemFonts_fsOk fs osk).1
      rw [hpr] at this
      exact this
    · have := (@scanSystemFonts_fsOk fs osk).2
      rw [hpb] at this
      exact this
  · right
    rw [Bool.and_eq_true, Option.isSome_iff_exists, Option.isSome_iff_exists] at h4
    obtain ⟨⟨pr, hpr⟩, ⟨pb, hpb⟩⟩ := h4
    refine ⟨pr, pb, ?_, ?_, ?_⟩
    · dsimp only
      rw [← hpr, ← hpb]
    · have := (@downloadNotoFonts_fsOk fs fontsDir dlOk).1
      rw [hpr] at this
      exact this
    · have := (@downloadNotoFonts_fsOk fs fontsDir dlOk).2
      rw [hpb] at this
      exact this
  · left
    rfl

/-! ### Facts about `str.split()` and the wrap loop -/

theorem pySplitAux_good {b : List Char} :
    ∀ (acc : List Char), (∀ c ∈ acc, isPySpace c = false) →
    ∀ wrd ∈ pySplitAux b acc, wrd ≠ [] ∧ ∀ c ∈ wrd, isPySpace c = false := by
  induction b with
  | nil =>
    intro acc hacc wrd hw
    unfold pySplitAux at hw
    split_ifs at hw with he
    · simp at hw
    · rw [List.mem_singleton] at hw
      subst hw
      constructor
      · intro h0
        rw [List.reverse_eq_nil_iff] at h0
        rw [h0] at he
        exact he rfl
      · intro c hc
        exact hacc c (List.mem_reverse.mp hc)
  | cons x t ih =>
    intro acc hacc wrd hw
    unfold pySplitAux at hw
    by_cases hx : isPySpace x
    · rw [if_pos hx] at hw
      split_ifs at hw with he
      · exact ih [] (by simp) wrd hw
      · rcases List.mem_cons.mp hw with h1 | h1
        · subst h1
          constructor
          · intro h0
            rw [List.reverse_eq_nil_iff] at h0
            rw [h0] at he
            exact he rfl
          · intro c hc
            exact hacc c (List.mem_reverse.mp hc)
        · exact ih [] (by simp) wrd h1
    · rw [if_neg hx] at hw
      refine ih (x :: acc) ?_ wrd hw
      intro c hc
      rcases List.mem_cons.mp hc with h1 | h1
      · subst h1
        exact Bool.eq_false_iff.mpr hx
      · exact hacc c h1

/-- Every word of `str.split()` is nonempty and free of whitespace. -/
theorem pySplit_good {text : List Char} :
    ∀ wrd ∈ pySplit text, wrd ≠ [] ∧ ∀ c ∈ wrd, isPySpace c = false :=
  pySplitAux_good [] (by simp)

theorem pySplitAux_append_space (b : List Char) :
    ∀ (x acc : List Char),
    pySplitAux (x ++ ' ' :: b) acc = pySplitAux x acc ++ pySplitAux b [] := by
  intro x
  induction x with
  | nil =>
    intro acc
    rw [List.nil_append]
    simp only [pySplitAux]
    rw [if_pos (by decide)]
    split_ifs with he
    · simp
    · simp
  | cons c t ih =>
    intro acc
    rw [List.cons_append]
    simp only [pySplitAux]
    by_cases hc : isPySpace c
    · rw [if_pos hc, if_pos hc]
      split_ifs with he
      · exact ih []
      · rw [ih [], List.cons_append]
    · rw [if_neg hc, if_neg hc]
      exact ih (c :: acc)

/-- Splitting separates at an inserted space. -/
theorem pySplit_append_space (a b : List Char) :
    pySplit (a ++ ' ' :: b) = pySplit a ++ pySplit b :=
  pySplitAux_append_space b a []

theorem pySplitAux_no_space {x : List Char} :
    ∀ acc, (∀ c ∈ x, isPySpace c = false) →
    pySplitAux x acc = if (acc.reverse ++ x).isEmpty then [] else [acc.reverse ++ x] := by
  induction x with
  | nil =>
    intro acc _
    unfold pySplitAux
    rw [List.append_nil]
    rw [show acc.isEmpty = acc.reverse.isEmpty by
      cases acc with
      | nil => rfl
      | cons y ys => simp]
  | cons c t ih =>
    intro acc h
    unfold pySplitAux
    rw [if_neg (by simp [h c (List.mem_cons_self _ _)])]
    rw [ih (c :: acc) (fun d hd => h d (List.mem_cons_of_mem _ hd))]
    rw [List.reverse_cons, List.append_assoc]
    rfl

/-- A nonempty whitespace-free word splits to itself. -/
theorem pySplit_single {word : List Char} (hne : word ≠ [])
    (h : ∀ c ∈ word, isPySpace c = false) : pySplit word = [word] := by
  unfold pySplit
  rw [pySplitAux_no_space [] h]
  rw [List.reverse_nil, List.nil_append]
  cases word with
  | nil => exact absurd rfl hne
  | cons c t => rfl

/-- Content preservation of the wrap loop: the words of the produced
lines are the processed words, in order. -/
theorem wrapAux_flatten (w : List Char → ℚ) (maxW : ℚ) :
    ∀ (ws : List (List Char)) (cur : List Char),
    (∀ x ∈ ws, x ≠ [] ∧ ∀ c ∈ x, isPySpace c = false) →
    ((wrapAux w maxW ws cur).map pySplit).flatten = pySplit cur ++ ws := by
  intro ws
  induction ws with
  | nil =>
    intro cur _
    cases cur with
    | nil => rfl
    | cons c t => simp [wrapAux]
  | cons word rest ih =>
    intro cur hws
    have hword := hws word (List.mem_cons_self _ _)
    have hrest : ∀ x ∈ rest, x ≠ [] ∧ ∀ c ∈ x, isPySpace c = false :=
      fun x hx => hws x (List.mem_cons_of_mem _ hx)
    cases cur with
    | nil =>
      simp only [wrapAux]
      split_ifs with hw1
      · rw [ih word hrest, pySplit_single hword.1 hword.2]
        rfl
      · rw [ih word hrest, pySplit_single hword.1 hword.2]
        rfl
    | cons c t =>
      simp only [wrapAux]
      split_ifs with hw1
      · rw [ih _ hrest, pySplit_append_space, pySplit_single hword.1 hword.2]
        simp
      · rw [List.map_cons, List.flatten_cons, ih word hrest,
          pySplit_single hword.1 hword.2]
        rfl

/-- Width soundness of the wrap loop: each produced line either fits or
is a single word of the word universe `allW` that alone exceeds the
width. -/
theorem wrapAux_width (w : List Char → ℚ) (maxW : ℚ) (allW : List (List Char)) :
    ∀ (ws : List (List Char)) (cur : List Char),
    (∀ x ∈ ws, x ∈ allW) →
    (cur = [] ∨ w cur ≤ maxW ∨ (cur ∈ allW ∧ maxW < w cur)) →
    ∀ line ∈ wrapAux w maxW ws cur,
      w line ≤ maxW ∨ (line ∈ allW ∧ maxW < w line) := by
  intro ws
  induction ws with
  | nil =>
    intro cur _ hcur line hl
    cases cur with
    | nil => simp [wrapAux] at hl
    | cons c t =>
      simp only [wrapAux, List.mem_singleton] at hl
      subst hl
      rcases hcur with h1 | h2
      · exact absurd h1 (by simp)
      · exact h2
  | cons word rest ih =>
    intro cur hws hcur line hl
    have hwordW : word ∈ allW := hws word (List.mem_cons_self _ _)
    have hrest : ∀ x ∈ rest, x ∈ allW := fun x hx => hws x (List.mem_cons_of_mem _ hx)
    have hwordInv : word = [] ∨ w word ≤ maxW ∨ (word ∈ allW ∧ maxW < w word) := by
      rcases lt_or_le maxW (w word) with hgt | hle
      · exact Or.inr (Or.inr ⟨hwordW, hgt⟩)
      · exact Or.inr (Or.inl hle)
    cases cur with
    | nil =>
      simp only [wrapAux] at hl
      split_ifs at hl with hw1
      · exact ih word hrest (Or.inr (Or.inl hw1)) line hl
      · exact ih word hrest hwordInv line hl
    | cons c t =>
      simp only [wrapAux] at hl
      split_ifs at hl with hw1
      · exact ih _ hrest (Or.inr (Or.inl hw1)) line hl
      · rcases List.mem_cons.mp hl with h1 | h1
        · subst h1
          rcases hcur with hc1 | hc2
          · exact absurd hc1 (by simp)
          · exact hc2
        · exact ih word hrest hwordInv line h1

/-- Claim C9: every line produced by `_wrap_text_rtl` either fits in
`max_width` under the width measure `_get_text_width`, or is a single
word of the input that alone exceeds `max_width`, placed on its own
line. -/
theorem wrapTextRtl_width (w : List Char → ℚ) (maxW : ℚ) (text : List Char) :
    ∀ line ∈ wrapTextRtl w maxW text,
      w line ≤ maxW ∨ (line ∈ pySplit text ∧ maxW < w line) := by
  intro line hl
  exact wrapAux_width w maxW (pySplit text) (pySplit text) []
    (fun x hx => hx) (Or.inl rfl) line hl

/-- Claim C10: `_wrap_text_rtl` preserves content — concatenating the
whitespace-split words of the produced lines, in order, gives exactly
the whitespace-split words of the input. -/
theorem wrapTextRtl_flatten (w : List Char → ℚ) (maxW : ℚ) (text : List Char) :
    ((wrapTextRtl w maxW text).map pySplit).flatten = pySplit text := by
  unfold wrapTextRtl
  rw [wrapAux_flatten w maxW (pySplit text) [] pySplit_good]
  rfl

/-! ### Every section carries a non-empty content line -/

theorem pySplitAux_eq_nil {b : List Char} :
    ∀ {acc : List Char}, pySplitAux b acc = [] →
    acc = [] ∧ ∀ c ∈ b, isPySpace c = true := by
  induction b with
  | nil =>
    intro acc h
    simp only [pySplitAux] at h
    split_ifs at h with he
    refine ⟨?_, by simp⟩
    cases acc with
    | nil => rfl
    | cons x t => exact absurd he (by simp)
  | cons c t ih =>
    intro acc h
    simp only [pySplitAux] at h
    by_cases hc : isPySpace c
    · rw [if_pos hc] at h
      split_ifs at h with he
      have hacc : acc = [] := by
        cases acc with
        | nil => rfl
        | cons x s => exact absurd he (by simp)
      refine ⟨hacc, ?_⟩
      intro d hd
      rcases List.mem_cons.mp hd with rfl | hd2
      · exact hc
      · exact (ih h).2 d hd2
    · rw [if_neg hc] at h
      exact absurd (ih h).1 (by simp)

/-- A string with a non-whitespace character splits into at least one
word. -/
theorem pySplit_ne_nil {l : List Char} {c : Char} (hm : c ∈ l)
    (hc : isPySpace c = false) : pySplit l ≠ [] := by
  intro h
  have := (pySplitAux_eq_nil h).2 c hm
  rw [hc] at this
  exact absurd this (by simp)

/-- If stripping leaves nothing, every character was whitespace. -/
theorem stripWs_eq_nil {l : List Char} (h : stripWs l = []) :
    ∀ c ∈ l, isPySpace c = true := by
  rw [stripWs_eq] at h
  unfold stripBy at h
  rw [List.reverse_eq_nil_iff] at h
  rw [List.dropWhile_eq_nil_iff] at h
  have hd : ∀ c ∈ l.dropWhile isPySpace, isPySpace c = true := by
    intro c hc
    have := h c (List.mem_reverse.mpr hc)
    exact this
  intro c hc
  rw [← @List.takeWhile_append_dropWhile _ isPySpace l] at hc
  rcases List.mem_append.mp hc with h1 | h1
  · exact List.mem_takeWhile_imp h1
  · exact hd c h1

/-- All-whitespace strings split to no words. -/
theorem pySplit_eq_nil {l : List Char} (h : ∀ c ∈ l, isPySpace c = true) :
    pySplit l = [] := by
  unfold pySplit
  induction l with
  | nil => rfl
  | cons c t ih =>
    simp only [pySplitAux]
    rw [if_pos (h c (List.mem_cons_self _ _)), if_pos (by simp)]
    exact ih fun d hd => h d (List.mem_cons_of_mem _ hd)

/-- `add_text` renders at least one non-empty line whenever the text
holds a non-whitespace character, for every width measure and indent. -/
theorem addText_has_content (env : PdEnv) (indent : ℚ) (text : String)
    {c : Char} (hm : c ∈ text.data) (hc : isPySpace c = false) :
    ∃ ln ∈ addText env indent text, ln ≠ "" := by
  have hsplit : pySplit text.data ≠ [] := pySplit_ne_nil hm hc
  have hfl := wrapTextRtl_flatten env.w (170 - indent) text.data
  have hex : ∃ line ∈ wrapTextRtl env.w (170 - indent) text.data, pySplit line ≠ [] := by
    by_contra hno
    push_neg at hno
    have : ((wrapTextRtl env.w (170 - indent) text.data).map pySplit).flatten = [] := by
      rw [List.flatten_eq_nil_iff]
      intro x hx
      rw [List.mem_map] at hx
      obtain ⟨line, hl, he⟩ := hx
      rw [← he]
      exact hno line hl
    rw [hfl] at this
    exact hsplit this
  obtain ⟨line, hl, hps⟩ := hex
  have hstrip : (stripWs line).isEmpty = false := by
    rw [Bool.eq_false_iff]
    intro he
    have hnil : stripWs line = [] := by
      cases hsw : stripWs line with
      | nil => rfl
      | cons x t =>
        rw [hsw] at he
        exact absurd he (by simp)
    exact hps (pySplit_eq_nil (stripWs_eq_nil hnil))
  refine ⟨String.mk (stripWs line), ?_, ?_⟩
  · unfold addText
    rw [List.mem_filterMap]
    refine ⟨line, hl, ?_⟩
    rw [hstrip]
    rfl
  · intro h0
    have : stripWs line = [] := congrArg String.data h0
    rw [this] at hstrip
    exact absurd hstrip (by simp)

/-- Push a witness character through a string append. -/
theorem mem_data_append_left {s t : String} {c : Char} (hm : c ∈ s.data) :
    c ∈ (s ++ t).data := by
  rw [String.data_append]
  exact List.mem_append_left _ hm

theorem dataPreviewSection_content (env : PdEnv) (df : DataFrame) :
    ∃ ln ∈ (dataPreviewSection env df).lines, ln ≠ "" := by
  obtain ⟨ln, hln, hne⟩ := addText_has_content env 0
    (tHe "data_shape" ++ ": " ++ env.fmtN df.nRows ++ " " ++ tHe "rows" ++ " × " ++
      toString df.cols.length ++ " " ++ tHe "columns") (c := 'מ')
    (by
      repeat apply mem_data_append_left
      decide)
    (by decide)
  simp only [dataPreviewSection]
  exact ⟨ln, List.mem_append_left _ (List.mem_append_left _ (List.mem_append_left _
    (List.mem_append_left _ hln))), hne⟩

theorem missingValuesSection_content (env : PdEnv) (df : DataFrame) :
    ∃ ln ∈ (missingValuesSection env df).lines, ln ≠ "" := by
  simp only [missingValuesSection]
  split_ifs with ht
  · exact addText_has_content env 0 _ (c := '✅') (by decide) (by decide)
  · obtain ⟨ln, hln, hne⟩ := addText_has_content env 0
      (tHe "missing_values_found") (c := 'נ') (by decide) (by decide)
    exact ⟨ln, List.mem_append_left _ (List.mem_append_left _
      (List.mem_append_left _ hln)), hne⟩

theorem categoricalSection_content (env : PdEnv) (df : DataFrame) :
    ∃ ln ∈ (categoricalSection env df).lines, ln ≠ "" := by
  simp only [categoricalSection]
  split_ifs with ht
  · exact addText_has_content env 0 _ (c := 'ל') (by decide) (by decide)
  · obtain ⟨ln, hln, hne⟩ := addText_has_content env 0
      (tHe "categorical_description") (c := 'נ') (by decide) (by decide)
    exact ⟨ln, List.mem_append_left _ hln, hne⟩

theorem numericSection_content (env : PdEnv) (df : DataFrame) :
    ∃ ln ∈ (numericSection env df).lines, ln ≠ "" := by
  simp only [numericSection]
  split_ifs with ht
  · exact addText_has_content env 0 _ (c := 'ל') (by decide) (by decide)
  · obtain ⟨ln, hln, hne⟩ := addText_has_content env 0
      (tHe "numeric_description") (c := 'נ') (by decide) (by decide)
    exact ⟨ln, List.mem_append_left _ hln, hne⟩

theorem statsSummarySection_content (env : PdEnv) (df : DataFrame) :
    ∃ ln ∈ (statsSummarySection env df).lines, ln ≠ "" := by
  simp only [statsSummarySection]
  obtain ⟨ln, hln, hne⟩ := addText_has_content env 0
    (tHe "data_types_summary" ++ ":") (c := 'ס')
    (mem_data_append_left (by decide)) (by decide)
  exact ⟨ln, List.mem_append_left _ (List.mem_append_left _ (List.mem_append_left _
    (List.mem_append_left _ hln))), hne⟩

theorem outliersSection_content (env : PdEnv) (df : DataFrame) :
    ∃ ln ∈ (outliersSection env df).lines, ln ≠ "" := by
  simp only [outliersSection]
  obtain ⟨ln, hln, hne⟩ := addText_has_content env 0
    (tHe "outliers_description") (c := 'ז') (by decide) (by decide)
  exact ⟨ln, List.mem_append_left _ hln, hne⟩

theorem recommendationsBody_ok {env : PdEnv} {ar : AnalysisResults}
    {df : DataFrame} {recs : List String}
    (h : recommendationsBody env ar df = .ok recs) :
    ∃ pre, recs = pre ++ generalRecs := by
  simp only [recommendationsBody] at h
  cases h1 : recNullBlock env (ar.basicInfo.getD emptyBasicInfo) with
  | error e =>
    rw [h1] at h
    simp only [Bind.bind, Except.bind] at h
    exact absurd h (by simp)
  | ok r1 =>
    rw [h1] at h
    simp only [Bind.bind, Except.bind] at h
    cases h2 : recDupBlock env (ar.basicInfo.getD emptyBasicInfo) with
    | error e =>
      rw [h2] at h
      exact absurd h (by simp)
    | ok r2 =>
      rw [h2] at h
      simp only [pure, Except.pure, Except.ok.injEq] at h
      exact ⟨r1 ++ r2 ++ recCorrBlock ar ++ recOutlierBlock ar df ++
        recSizeBlock env (ar.basicInfo.getD emptyBasicInfo) ++
        recMemBlock env (ar.basicInfo.getD emptyBasicInfo), h.symm⟩

theorem recommendationsSection_content (env : PdEnv) (ar : AnalysisResults)
    (df : DataFrame) (hok : (recommendationsBody env ar df).isOk = true) :
    ∃ ln ∈ (recommendationsSection env ar df).lines, ln ≠ "" := by
  simp only [recommendationsSection]
  cases hr : recommendationsBody env ar df with
  | error e =>
    rw [hr] at hok
    exact absurd hok (by simp [Except.isOk, Except.toBool])
  | ok recs =>
    dsimp only
    have hne : recs ≠ [] := by
      obtain ⟨pre, hpre⟩ := recommendationsBody_ok hr
      rw [hpre]
      intro h0
      rcases List.append_eq_nil.mp h0 with ⟨_, h2⟩
      exact absurd h2 (by decide)
    cases recs with
    | nil => exact absurd rfl hne
    | cons r0 rtail =>
      by_cases hi : 0 + 1 ≤ (r0 :: rtail).length - 5
      · obtain ⟨ln, hln, hlnne⟩ := addText_has_content env 5 ("🎯 " ++ r0)
          (c := '🎯') (mem_data_append_left (by decide)) (by decide)
        refine ⟨ln, ?_, hlnne⟩
        rw [List.mem_flatten]
        refine ⟨addText env 5 ("🎯 " ++ r0), ?_, hln⟩
        rw [List.mem_map]
        refine ⟨(0, r0), ?_, by rw [if_pos hi]⟩
        rw [List.enum_cons]
        exact List.mem_cons_self _ _
      · obtain ⟨ln, hln, hlnne⟩ := addText_has_content env 5 ("💡 " ++ r0)
          (c := '💡') (mem_data_append_left (by decide)) (by decide)
        refine ⟨ln, ?_, hlnne⟩
        rw [List.mem_flatten]
        refine ⟨addText env 5 ("💡 " ++ r0), ?_, hln⟩
        rw [List.mem_map]
        refine ⟨(0, r0), ?_, by rw [if_neg hi]⟩
        rw [List.enum_cons]
        exact List.mem_cons_self _ _

/-- Claim C1 (amended): for every library environment, input frame and
`analysis_results`, the pipeline emits exactly one section per stage in
the fixed order, and every section except a raising recommendations
stage carries at least one non-empty content line; when the
recommendations body does not raise, all seven sections do. -/
theorem addGuaranteedSections_sound (env : PdEnv) (df : DataFrame)
    (ar : Option AnalysisResults)
    (hok : (recommendationsBody env (ar.getD emptyAnalysis) df).isOk = true) :
    ((addGuaranteedSections env df ar).map RSection.title =
      [tHe "data_preview_title", tHe "missing_values_title", tHe "categorical_title",
       tHe "numeric_title", tHe "stats_summary_title", tHe "outliers_title",
       tHe "recommendations_title"]) ∧
    ∀ s ∈ addGuaranteedSections env df ar, ∃ ln ∈ s.lines, ln ≠ "" := by
  constructor
  · rfl
  · intro s hs
    simp only [addGuaranteedSections, List.mem_cons, List.not_mem_nil, or_false] at hs
    rcases hs with rfl | rfl | rfl | rfl | rfl | rfl | rfl
    · exact dataPreviewSection_content env df
    · exact missingValuesSection_content env df
    · exact categoricalSection_content env df
    · exact numericSection_content env df
    · exact statsSummarySection_content env df
    · exact outliersSection_content env df
    · exact recommendationsSection_content env _ df hok

/-! ## Claim theorems, counterexamples and witnesses -/

/-- Claim C2, counterexample: on a parenthesised percentage the
percentage branch returns before the parenthesis test, so `"(5%)"` maps
to `+0.05`, not the `-0.05` a parenthesized-negative reading requires. -/
theorem cleanNumericValue_paren_pct_example :
    cleanNumericValue "(5%)" = some ((5 : ℚ) / 100) ∧
    cleanNumericValue "(5%)" ≠ some (-((5 : ℚ) / 100)) := by
  have h : cleanNumericValue "(5%)" = some ((5 : ℚ) / 100) := by
    with_unfolding_all rfl
  refine ⟨h, ?_⟩
  rw [h]
  with_unfolding_all decide

/-- Claim C2 (amended): currency symbols and whitespace are stripped, a
`%` suffix divides the matched number by 100, and parentheses yield a
negative value for non-percentage inputs (when `%` is present the
percentage branch returns first and ignores the parentheses); the
spec's examples evaluate as stated. Shown for every nonempty digit
string `d`, together with the concrete separator examples. -/
theorem cleanNumericValue_families (d : List Char) (hne : d ≠ [])
    (hd : ∀ c ∈ d, isPyDigit c = true) :
    cleanNumericValue ⟨'₪' :: d⟩ = some ((digitsVal d : ℚ)) ∧
    cleanNumericValue ⟨'(' :: (d ++ [')'])⟩ = some (-(digitsVal d : ℚ)) ∧
    cleanNumericValue ⟨d ++ ['%']⟩ = some ((digitsVal d : ℚ) / 100) ∧
    cleanNumericValue "₪1,234.56" = some ((123456 : ℚ) / 100) ∧
    cleanNumericValue "(500)" = some (-500 : ℚ) ∧
    cleanNumericValue "15%" = some ((15 : ℚ) / 100) ∧
    cleanNumericValue "€12,5" = some ((125 : ℚ) / 10) ∧
    cleanNumericValue "(1,000)" = some (-1000 : ℚ) :=
  ⟨cleanNumericValue_currency hne hd, cleanNumericValue_paren hne hd,
   cleanNumericValue_pct hne hd, by with_unfolding_all rfl,
   by with_unfolding_all rfl, by with_unfolding_all rfl,
   by with_unfolding_all rfl, by with_unfolding_all rfl⟩

/-- Claim C2, witness at `d = "7"`. -/
theorem cleanNumericValue_families_witness :
    cleanNumericValue ⟨'₪' :: ['7']⟩ = some ((digitsVal ['7'] : ℚ)) :=
  (cleanNumericValue_families ['7'] (by decide) (by decide)).1

/-- Claim C3 (amended): below the acceptance threshold (50 % numeric,
60 % dates) the column is returned byte-for-byte unchanged; at or above
the threshold the converted column is returned — for `coerce_numeric`
whenever an original non-null cell exists, and for the date coercion
only when the 30 % date-indicator sampling gate has also passed. -/
theorem coercion_threshold_behavior (parse : String → Option ℤ)
    (col : List (Option String)) :
    (((nonNullCount (col.map convertCell) : ℚ) / (nonNullCount col : ℚ) < 1 / 2) →
      coerceNumeric col = .kept col) ∧
    (0 < nonNullCount col →
      ((nonNullCount (col.map convertCell) : ℚ) / (nonNullCount col : ℚ) ≥ 1 / 2) →
      coerceNumeric col = .converted (col.map convertCell)) ∧
    (((nonNullCount (col.map fun v => v.bind parse) : ℚ) /
        (nonNullCount col : ℚ) < 3 / 5) →
      dateCoerceColumn parse col = .kept col) ∧
    (dateGate col → 0 < nonNullCount col →
      ((nonNullCount (col.map fun v => v.bind parse) : ℚ) /
        (nonNullCount col : ℚ) ≥ 3 / 5) →
      dateCoerceColumn parse col = .converted (col.map fun v => v.bind parse)) :=
  ⟨coerceNumeric_kept, coerceNumeric_converted, dateCoerceColumn_kept parse,
   fun hg h0 h => dateCoerceColumn_converted parse hg h0 h⟩

/-- Claim C3, counterexample: a column of parseable dates in a format
the four indicator regexes do not match is kept although its parse
success rate is 100 % — the 60 % threshold alone does not decide the
conversion. -/
theorem dateCoerce_gate_example :
    dateCoerceColumn (fun s => if s = "15 Jan 2024" then some 0 else none)
      [some "15 Jan 2024"] = .kept [some "15 Jan 2024"] ∧
    ((nonNullCount ([some "15 Jan 2024"].map fun v => v.bind
        (fun s => if s = "15 Jan 2024" then some 0 else none)) : ℚ) /
      (nonNullCount ([some "15 Jan 2024"] : List (Option String)) : ℚ) ≥ 3 / 5) ∧
    dateCoerceColumn (fun s => if s = "15 Jan 2024" then some 0 else none)
      [some "15 Jan 2024"] ≠ .converted [some (0 : ℤ)] := by
  have ha : dateCoerceColumn (fun s => if s = "15 Jan 2024" then some 0 else none)
      [some "15 Jan 2024"] = .kept [some "15 Jan 2024"] := by
    with_unfolding_all rfl
  refine ⟨ha, by with_unfolding_all decide, ?_⟩
  rw [ha]
  intro h
  exact DateCoerceResult.noConfusion h

/-- Claim C3, witness: a 100 % convertible numeric column is converted. -/
theorem coercion_threshold_behavior_witness :
    coerceNumeric [some "5"] = .converted ([some "5"].map convertCell) :=
  (coercion_threshold_behavior (fun _ => none) [some "5"]).2.1
    (by with_unfolding_all decide) (by with_unfolding_all decide)

/-- Claim C4 (amended): an empty table (0 rows) does not crash document
generation, but no report is produced either — both entry points return
`None` (an explicit failure indication) before emitting anything. -/
theorem empty_frame_report_returns_none (parse : String → Option ℤ) (saveOk : Bool)
    (df : DataFrame) (outputPath : String) (h : df.nRows = 0) :
    generate_complete_data_report parse saveOk df outputPath = none ∧
    generateComprehensiveReport parse saveOk df outputPath = none := by
  have hemp : df.empty = true := by
    unfold DataFrame.empty
    rw [h]
    simp
  have hpre : preprocess_df parse df = .ok df := by
    unfold preprocess_df
    rw [if_pos hemp]
  constructor
  · unfold generate_complete_data_report
    rw [if_pos hemp]
  · simp only [generateComprehensiveReport, hpre, hemp]
    rfl

/-- Claim C4, counterexample: on a 0-row table the generator returns
`None`; no output path is produced. -/
theorem generate_complete_empty_example :
    generate_complete_data_report (fun _ => none) true
      ⟨0, [⟨"a", ColData.obj []⟩]⟩ "report.pdf" = none ∧
    generate_complete_data_report (fun _ => none) true
      ⟨0, [⟨"a", ColData.obj []⟩]⟩ "report.pdf" ≠ some "report.pdf" := by
  decide

/-- Claim C4, witness at a concrete 0-row frame. -/
theorem empty_frame_report_returns_none_witness :
    generate_complete_data_report (fun _ => none) true
      ⟨0, [⟨"b", ColData.obj []⟩]⟩ "out.pdf" = none ∧
    generateComprehensiveReport (fun _ => none) true
      ⟨0, [⟨"b", ColData.obj []⟩]⟩ "out.pdf" = none :=
  empty_frame_report_returns_none (fun _ => none) true
    ⟨0, [⟨"b", ColData.obj []⟩]⟩ "out.pdf" (by decide)

/-- Claim C5 (amended): whenever `preprocess_df` returns a frame (it
raises on normalisation collisions) and the nonempty input frame's
original column names draw on ASCII and the Hebrew block, every
resulting identifier is nonempty and matches
`^[A-Za-z0-9_֐-׿]+$`; uniqueness is NOT guaranteed — two names
normalising to the same label crash the pipeline instead of being
disambiguated — and characters such as `é` escape the stated class. -/
theorem preprocess_column_names_sound (parse : String → Option ℤ) (df df' : DataFrame)
    (hne : df.empty = false)
    (hin : ∀ c ∈ df.cols, ∀ ch ∈ c.name.data, ch.toNat < 128 ∨ isHebrewBlock ch = true)
    (hok : preprocess_df parse df = .ok df') :
    ∀ c ∈ df'.cols, c.name ≠ "" ∧
      ∀ ch ∈ c.name.data, specIdentChar ch = true := by
  intro c hc
  obtain ⟨c₀, hm, he⟩ := preprocess_name hok hne hc
  constructor
  · rw [he]
    intro h0
    exact normalizeColumnNameL_ne_nil c₀.name.data (congrArg String.data h0)
  · rw [he]
    intro ch hch
    exact normalize_chars (hin c₀ hm) ch hch

/-- Claim C5, counterexample: `"a b"` and `"a_b"` both normalise to
`"a_b"`; far from being disambiguated, the duplicated label makes
`df[col].dtype` raise `AttributeError` and `preprocess_df` crashes
instead of returning a frame. Independently, the Latin-1 word character
`é` survives preprocessing as a column name though it is outside
`[A-Za-z0-9_֐-׿]`. -/
theorem preprocess_column_names_example :
    ((renameCols ⟨2, [⟨"a b", ColData.obj [some "x", some "y"]⟩,
        ⟨"a_b", ColData.obj [some "x", some "y"]⟩]⟩).cols.map DFCol.name) = ["a_b", "a_b"] ∧
    preprocess_df (fun _ => none) ⟨2, [⟨"a b", ColData.obj [some "x", some "y"]⟩,
        ⟨"a_b", ColData.obj [some "x", some "y"]⟩]⟩ = .error () ∧
    preprocess_df (fun _ => none) ⟨1, [⟨"é", ColData.obj [some "x"]⟩]⟩ =
      .ok ⟨1, [⟨"é", ColData.obj [some "x"]⟩]⟩ ∧
    specIdentChar 'é' = false := by
  refine ⟨by decide, by rfl, by with_unfolding_all rfl, by decide⟩

/-- Claim C5, witness: a renamed ASCII column satisfies the class. -/
theorem preprocess_column_names_sound_witness :
    (⟨"Total_Sales", ColData.obj [some "x"]⟩ : DFCol).name ≠ "" ∧
    ∀ ch ∈ (⟨"Total_Sales", ColData.obj [some "x"]⟩ : DFCol).name.data,
      specIdentChar ch = true :=
  preprocess_column_names_sound (fun _ => none)
    ⟨1, [⟨"Total Sales", ColData.obj [some "x"]⟩]⟩
    ⟨1, [⟨"Total_Sales", ColData.obj [some "x"]⟩]⟩ (by decide) (by decide)
    (by with_unfolding_all rfl)
    ⟨"Total_Sales", ColData.obj [some "x"]⟩ (by decide)

/-- Claim C6: `normalize_column_name` is idempotent and always returns
a nonempty identifier (purity and determinism are inherent to the
function model). -/
theorem normalize_column_name_idempotent (s : String) :
    normalize_column_name (normalize_column_name s) = normalize_column_name s ∧
    normalize_column_name s ≠ "" := by
  constructor
  · exact congrArg String.mk (normalizeColumnNameL_idem s.data)
  · intro h0
    exact normalizeColumnNameL_ne_nil s.data (congrArg String.data h0)

/-- Claim C6, witness at `"a b"`. -/
theorem normalize_column_name_idempotent_witness :
    normalize_column_name (normalize_column_name "a b") = normalize_column_name "a b" ∧
    normalize_column_name "a b" ≠ "" :=
  normalize_column_name_idempotent "a b"

/-- Claim C8 (amended): when the repository, environment and system
tiers have not each produced both weights — in particular when the
system scan finds a regular font but no bold — the resolver treats the
tier as failed and falls through to the download tier; it performs no
regular-as-bold duplication (that substitution lives in
`setup_hebrew_support`'s font registration, lines 312–317). -/
theorem resolveHebrewFonts_system_regular_only (fs : String → Bool)
    (env : String → Option String) (baseDir : String) (osk : OSKind)
    (fontsDir : Option String) (dlOk : String → Bool)
    (h1 : ((checkRepositoryFonts fs baseDir).1.isSome &&
      (checkRepositoryFonts fs baseDir).2.isSome) = false)
    (h2 : ((checkEnvironmentFonts fs env).1.isSome &&
      (checkEnvironmentFonts fs env).2.isSome) = false)
    (h3 : (scanSystemFonts fs osk).2 = none) :
    resolveHebrewFonts fs env baseDir osk fontsDir dlOk =
      (if ((downloadNotoFonts fs fontsDir dlOk).1.1.isSome &&
          (downloadNotoFonts fs fontsDir dlOk).1.2.isSome) = true
        then downloadNotoFonts fs fontsDir dlOk
        else ((none, none), (downloadNotoFonts fs fontsDir dlOk).2)) := by
  simp only [resolveHebrewFonts]
  rw [if_neg (by simp [h1]), if_neg (by simp [h2]), if_neg (by rw [h3]; simp)]

/-- Claim C8, counterexample: with only the DejaVu regular present, the
system tier yields `(regular, None)` and the resolver returns
`(None, None)` (download tier unavailable) — not the duplicated pair
the claim describes. -/
theorem resolveHebrewFonts_no_duplication_example :
    scanSystemFonts sampleFs .linuxOS =
      (some "/usr/share/fonts/truetype/dejavu/DejaVuSans.ttf", none) ∧
    (resolveHebrewFonts sampleFs (fun _ => none) "/app/src" .linuxOS none
      (fun _ => false)).1 = (none, none) ∧
    (resolveHebrewFonts sampleFs (fun _ => none) "/app/src" .linuxOS none
      (fun _ => false)).1 ≠
      (some "/usr/share/fonts/truetype/dejavu/DejaVuSans.ttf",
       some "/usr/share/fonts/truetype/dejavu/DejaVuSans.ttf") := by
  refine ⟨by rfl, by rfl, ?_⟩
  intro h
  have h0 : (resolveHebrewFonts sampleFs (fun _ => none) "/app/src" .linuxOS none
      (fun _ => false)).1 = (none, none) := by rfl
  rw [h0] at h
  exact Option.noConfusion (congrArg Prod.fst h)

/-- Claim C8, witness: the fall-through theorem applied to the DejaVu
regular-only scenario. -/
theorem resolveHebrewFonts_system_regular_only_witness :
    resolveHebrewFonts sampleFs (fun _ => none) "/app/src" .linuxOS none
        (fun _ => false) =
      (if ((downloadNotoFonts sampleFs none (fun _ => false)).1.1.isSome &&
          (downloadNotoFonts sampleFs none (fun _ => false)).1.2.isSome) = true
        then downloadNotoFonts sampleFs none (fun _ => false)
        else ((none, none), (downloadNotoFonts sampleFs none (fun _ => false)).2)) :=
  resolveHebrewFonts_system_regular_only sampleFs (fun _ => none) "/app/src"
    .linuxOS none (fun _ => false) (by decide) (by decide) (by decide)

/-- Claim C9, witness: wrapping `"hello world"` at width 10 under the
fallback measure produces the line `"hello"`, which fits. -/
theorem wrapTextRtl_width_witness :
    (fun l : List Char => ((l.length : ℚ) * 2)) "hello".data ≤ 10 ∨
      ("hello".data ∈ pySplit "hello world".data ∧
        10 < (fun l : List Char => ((l.length : ℚ) * 2)) "hello".data) :=
  wrapTextRtl_width (fun l => ((l.length : ℚ) * 2)) 10 "hello world".data
    "hello".data (by with_unfolding_all decide)

/-- Claim C1, counterexample: with a caller-supplied `analysis_results`
whose `basic_info` holds `null_counts` and the shape `(0, 0)`, the
recommendations body divides by zero, its handler adds no content, and
the recommendations section is emitted title-only — exactly one section
per stage still appears, but the last one has no content line. -/
theorem addGuaranteedSections_titleOnly_example :
    (¬ ∀ s ∈ addGuaranteedSections sampleEnv ⟨1, [⟨"a", ColData.obj [some "x"]⟩]⟩
        (some ⟨some ⟨some [("a", 0)], some (0, 0), none, none⟩, none, none⟩),
      ∃ ln ∈ s.lines, ln ≠ "") ∧
    ((addGuaranteedSections sampleEnv ⟨1, [⟨"a", ColData.obj [some "x"]⟩]⟩
        (some ⟨some ⟨some [("a", 0)], some (0, 0), none, none⟩, none, none⟩)).map
      (fun s => s.lines.isEmpty) = [false, false, false, false, false, false, true]) := by
  have h : (addGuaranteedSections sampleEnv ⟨1, [⟨"a", ColData.obj [some "x"]⟩]⟩
      (some ⟨some ⟨some [("a", 0)], some (0, 0), none, none⟩, none, none⟩)).map
      (fun s => s.lines.isEmpty) = [false, false, false, false, false, false, true] := by
    with_unfolding_all rfl
  refine ⟨?_, h⟩
  intro hall
  have hm : true ∈ (addGuaranteedSections sampleEnv ⟨1, [⟨"a", ColData.obj [some "x"]⟩]⟩
      (some ⟨some ⟨some [("a", 0)], some (0, 0), none, none⟩, none, none⟩)).map
      (fun s => s.lines.isEmpty) := by
    rw [h]
    simp
  obtain ⟨s, hs, he⟩ := List.mem_map.mp hm
  obtain ⟨ln, hln, _⟩ := hall s hs
  rw [List.isEmpty_iff.mp he] at hln
  exact (List.not_mem_nil ln) hln

/-- Claim C1, witness: on a one-cell frame with the default
`analysis_results`, all seven sections appear in order, each with
content. -/
theorem addGuaranteedSections_sound_witness :
    (recommendationsBody sampleEnv emptyAnalysis
      ⟨1, [⟨"a", ColData.obj [some "x"]⟩]⟩).isOk = true ∧
    (((addGuaranteedSections sampleEnv ⟨1, [⟨"a", ColData.obj [some "x"]⟩]⟩ none).map
        RSection.title =
      [tHe "data_preview_title", tHe "missing_values_title", tHe "categorical_title",
       tHe "numeric_title", tHe "stats_summary_title", tHe "outliers_title",
       tHe "recommendations_title"]) ∧
      ∀ s ∈ addGuaranteedSections sampleEnv ⟨1, [⟨"a", ColData.obj [some "x"]⟩]⟩ none,
        ∃ ln ∈ s.lines, ln ≠ "") :=
  ⟨by with_unfolding_all decide, addGuaranteedSections_sound sampleEnv
    ⟨1, [⟨"a", ColData.obj [some "x"]⟩]⟩ none (by with_unfolding_all decide)⟩

end HebrewBot
